import Mathlib

/-!
Shallow embedding of the JTTB Tiny-BASIC virtual machine (src/tbvm/tbvm.c).

The integer-only build configuration (`TBVM_CONFIG_INTEGER_ONLY`) has
`tbvm_number = int`, modelled here as `Int`; fragments that are specific to
the floating-point build (`tbvm_number = double`) are modelled separately
over `ℚ` with names carrying the suffix `Float`.

C stacks are arrays with a stack pointer; only the live prefix is ever
observable, so they are modelled as lists whose head is the top of stack.
-/

namespace TBVM

/-- Stack size limits from tbvm.c: SIZE_CSTK, SIZE_SBRSTK = 64+26, SIZE_AESTK,
SIZE_LBUF, MAX_LINENO. -/
def SIZE_CSTK : Nat := 64

def SIZE_SBRSTK : Nat := 64 + 26

def SIZE_AESTK : Nat := 64

def SIZE_LBUF : Int := 256

def MAX_LINENO : Int := 65535

/-- A reference to a string object: `none` is the shared `&empty_string`
singleton, `some i` is the heap node with identity `i` (pointer identity). -/
abbrev StrRef := Option Nat

/-- A heap string node (struct string): reference count, byte length, origin
line number (nonzero for static strings), and the bytes. -/
structure HStr where
  refs : Nat
  len : Nat
  lineno : Int
  sval : List Char
deriving DecidableEq, Repr

/-- The string heap: the singly-linked list `vm->strings` (head = most
recently allocated), the allocator's next fresh identity, the
`strings_need_gc` counter and the `static_strings_valid` flag. -/
structure Heap where
  strs : List (Nat × HStr)
  nextId : Nat
  needGc : Nat
  staticValid : Bool
deriving DecidableEq, Repr

/-- A tagged value (struct value).  `uninit` stands for any type tag other
than NUMBER / STRING / VARREF (e.g. VALUE_TYPE_ANY for a zeroed slot). -/
inductive Value where
  | num (n : Int)
  | str (r : StrRef)
  | varref (v : Nat)
  | uninit
deriving DecidableEq, Repr

/-- The `var` field of a subroutine-stack frame: either the sentinel
SUBR_VAR_SUBROUTINE, or a variable slot (a var_ref into vm->vars). -/
inductive SubrVar where
  | sub
  | var (v : Nat)
deriving DecidableEq, Repr

/-- A subroutine/FOR frame (struct subr). -/
structure Subr where
  var : SubrVar
  lineno : Int
  lbuf_ptr : Int
  start_val : Int
  end_val : Int
  step : Int
deriving DecidableEq, Repr

/-- How an opcode implementation leaves the dispatch loop: a BASIC error
(longjmp to basic_error_env, carrying the message passed to basic_error,
without the " ERROR" suffix) or a VM abort (longjmp to vm_abort_env). -/
inductive Fault where
  | basic (msg : String)
  | abort (msg : String)
deriving DecidableEq, Repr

/-- The console: `vm->cons_column` plus the stream of bytes the VM has
written through `io_putchar`. -/
structure Cons where
  column : Nat
  out : List Char
deriving DecidableEq, Repr

/-- The VM state (struct tbvm), restricted to the fields the modelled
routines read or write.  `lbuf` is `none` when `vm->lbuf` points at
`vm->direct_lbuf` and `some n` when it points at program line `n`'s text. -/
structure VMState where
  direct : Bool
  lineno : Int
  pc : Nat
  collector_pc : Nat
  executor_pc : Nat
  ondone : Nat
  cstk : List Nat
  sbrstk : List Subr
  aestk : List Value
  vars : Nat → Value
  progstore : Nat → Option (List Char)
  first_line : Int
  last_line : Int
  lbuf : Option Int
  lbuf_ptr : Int
  saved_lineno : Int
  saved_lbuf_ptr : Int
  data_lineno : Int
  data_lbuf_ptr : Int
  prog_file_open : Bool
  cons_is_console : Bool
  cons : Cons
  heap : Heap

/-! ## String heap routines -/

/-- string_retain: empty-string singleton is exempt; a retain that takes the
reference count away from zero decrements `strings_need_gc`. -/
def string_retain (h : Heap) (r : StrRef) : Heap :=
  match r with
  | none => h
  | some i =>
    match h.strs.find? (fun p => p.1 = i) with
    | none => h
    | some p =>
      { h with
        strs := h.strs.map
          (fun q => if q.1 = i then (q.1, { q.2 with refs := q.2.refs + 1 }) else q)
        needGc := if p.2.refs = 0 then h.needGc - 1 else h.needGc }

/-- string_release: empty-string singleton is exempt; a release that drops
the reference count to zero increments `strings_need_gc`. -/
def string_release (h : Heap) (r : StrRef) : Heap :=
  match r with
  | none => h
  | some i =>
    match h.strs.find? (fun p => p.1 = i) with
    | none => h
    | some p =>
      { h with
        strs := h.strs.map
          (fun q => if q.1 = i then (q.1, { q.2 with refs := q.2.refs - 1 }) else q)
        needGc := if p.2.refs - 1 = 0 then h.needGc + 1 else h.needGc }

/-- string_alloc: a zero-length request returns the shared empty string and
touches nothing; otherwise a fresh node with zero references is linked at
the head of the heap list and `strings_need_gc` is incremented.  `bytes`
stands for the buffer contents (`calloc` zero fill when the C caller passes
NULL). -/
def string_alloc (h : Heap) (bytes : List Char) (len : Nat) (lineno : Int) :
    StrRef × Heap :=
  if len = 0 then
    (none, h)
  else
    (some h.nextId,
      { strs := (h.nextId, ⟨0, len, lineno, bytes⟩) :: h.strs
        nextId := h.nextId + 1
        needGc := h.needGc + 1
        staticValid := if lineno ≠ 0 then true else h.staticValid })

/-- string_gc: when `strings_need_gc` is nonzero, unlink and free every
string whose reference count is zero and reset the counter. -/
def string_gc (h : Heap) : Heap :=
  if h.needGc ≠ 0 then
    { h with strs := h.strs.filter (fun p => p.2.refs ≠ 0), needGc := 0 }
  else
    h

/-! ## Value routines -/

/-- value_valid_p: NUMBER and VARREF are valid; a STRING is valid when its
pointer is non-null (references in this model are always non-null); any
other type tag is invalid. -/
def value_valid_p : Value → Bool
  | .num _ => true
  | .varref _ => true
  | .str _ => true
  | .uninit => false

/-- value_retain: only strings carry a reference count. -/
def value_retain (h : Heap) : Value → Heap
  | .str r => string_retain h r
  | _ => h

/-- value_release: only strings carry a reference count. -/
def value_release (h : Heap) : Value → Heap
  | .str r => string_release h r
  | _ => h

/-! ## Stack routines

stack_push / stack_pop return -1 on a full (resp. empty) stack; the list
model folds that bound check into each caller. -/

/-- cstk_push: overflow of the control stack is a VM abort. -/
def cstk_push (s : VMState) (v : Nat) : Except Fault VMState :=
  if s.cstk.length = SIZE_CSTK then
    .error (.abort "!CONTROL STACK OVERFLOW")
  else
    .ok { s with cstk := v :: s.cstk }

/-- cstk_pop: underflow of the control stack is a VM abort. -/
def cstk_pop (s : VMState) : Except Fault (Nat × VMState) :=
  match s.cstk with
  | [] => .error (.abort "!CONTROL STACK UNDERFLOW")
  | v :: rest => .ok (v, { s with cstk := rest })

/-- sbrstk_push: overflow of the subroutine/frame stack raises the
TOO MANY GOSUBS or TOO MANY FOR LOOPS BASIC error depending on the kind
of frame being pushed. -/
def sbrstk_push (s : VMState) (subr : Subr) : Except Fault VMState :=
  if s.sbrstk.length = SIZE_SBRSTK then
    if subr.var = .sub then
      .error (.basic "TOO MANY GOSUBS")
    else
      .error (.basic "TOO MANY FOR LOOPS")
  else
    .ok { s with sbrstk := subr :: s.sbrstk }

/-- aestk_push_value: pushing an invalid value is a VM abort; overflow of
the expression stack raises the EXPRESSION TOO COMPLEX BASIC error; a
successful push retains the value. -/
def aestk_push_value (s : VMState) (v : Value) : Except Fault VMState :=
  if ¬ value_valid_p v then
    .error (.abort "!PUSHING INVALID VALUE")
  else if s.aestk.length = SIZE_AESTK then
    .error (.basic "EXPRESSION TOO COMPLEX")
  else
    .ok { s with aestk := v :: s.aestk, heap := value_retain s.heap v }

/-- aestk_pop_value: underflow is a VM abort; the popped value is released;
a type mismatch against a specific requested tag raises WRONG VALUE TYPE.
`want = none` stands for VALUE_TYPE_ANY. -/
def aestk_pop_value (s : VMState) (want : Option (Value → Bool)) :
    Except Fault (Value × VMState) :=
  match s.aestk with
  | [] => .error (.abort "!EXPRESSION STACK UNDERFLOW")
  | v :: rest =>
    let s' := { s with aestk := rest, heap := value_release s.heap v }
    match want with
    | none => .ok (v, s')
    | some tag => if tag v then .ok (v, s') else .error (.basic "WRONG VALUE TYPE")

/-- Tag test for VALUE_TYPE_NUMBER. -/
def isNum : Value → Bool
  | .num _ => true
  | _ => false

/-- Tag test for VALUE_TYPE_STRING. -/
def isStr : Value → Bool
  | .str _ => true
  | _ => false

/-- Tag test for VALUE_TYPE_VARREF. -/
def isVarref : Value → Bool
  | .varref _ => true
  | _ => false

/-- aestk_pop_number. -/
def aestk_pop_number (s : VMState) : Except Fault (Int × VMState) := do
  let (v, s') ← aestk_pop_value s (some isNum)
  match v with
  | .num n => .ok (n, s')
  | _ => .error (.abort "!EXPRESSION STACK UNDERFLOW")

/-- aestk_pop_varref. -/
def aestk_pop_varref (s : VMState) : Except Fault (Nat × VMState) := do
  let (v, s') ← aestk_pop_value s (some isVarref)
  match v with
  | .varref r => .ok (r, s')
  | _ => .error (.abort "!EXPRESSION STACK UNDERFLOW")

/-- aestk_push_number. -/
def aestk_push_number (s : VMState) (n : Int) : Except Fault VMState :=
  aestk_push_value s (.num n)

/-! ## Console output (vm_cons_putchar and the print helpers) -/

/-- vm_cons_putchar0: raw byte out; a line feed resets the column. -/
def putchar0 (c : Cons) (ch : Char) : Cons :=
  { column := if ch = '\n' then 0 else c.column + 1
    out := c.out ++ [ch] }

/-- vm_cons_putchar: a TAB becomes spaces up to the next tab stop
(CONS_TABSTOP = 10); the do/while loop emits `10 - column % 10` spaces. -/
def putchar (c : Cons) (ch : Char) : Cons :=
  if ch = '\t' then
    (List.replicate (10 - c.column % 10) ' ').foldl putchar0 c
  else
    putchar0 c ch

/-- print_cstring. -/
def print_cstring (c : Cons) (msg : List Char) : Cons :=
  msg.foldl putchar c

/-- print_crlf. -/
def print_crlf (c : Cons) : Cons :=
  putchar c '\n'

/-- The decimal digit loop (digits accumulate to the left of `acc`).
The fuel bounds the digit count; 30 covers every number below 10^30. -/
def decChars (fuel n : Nat) (acc : List Char) : List Char :=
  match fuel with
  | 0 => acc
  | fuel + 1 =>
    if n = 0 then acc
    else decChars fuel (n / 10) (Nat.digitChar (n % 10) :: acc)

/-- Decimal digits of a natural number, most significant first
(the digit stream produced by sprintf "%u"). -/
def natToChars (n : Nat) : List Char :=
  if n = 0 then ['0'] else decChars 30 n []

/-- Decimal representation of an int as printed by format_integer /
sprintf "%d" (no field width). -/
def intToChars (n : Int) : List Char :=
  if n < 0 then '-' :: natToChars (-n).toNat else natToChars n.toNat

/-- print_integer: format_integer with width 0. -/
def print_integer (c : Cons) (n : Int) : Cons :=
  print_cstring c (intToChars n)

/-! ## Direct mode and the BASIC error path -/

/-- aestk_reset: pop (and release) every value on the expression stack. -/
def aestk_reset (s : VMState) : VMState :=
  { s with aestk := [], heap := s.aestk.foldl value_release s.heap }

/-- reset_stacks. -/
def reset_stacks (s : VMState) : VMState :=
  let s1 := aestk_reset s
  { s1 with ondone := 0, cstk := [], sbrstk := [] }

/-- direct_mode: empty the stacks, restart at the collector entry with
line number 0 and the direct line buffer. -/
def direct_mode (s : VMState) (ptr : Int) : VMState :=
  let s1 := reset_stacks s
  { s1 with direct := true, pc := s.collector_pc, lineno := 0,
            lbuf := none, lbuf_ptr := ptr }

/-- prog_file_fini: point the console back at the terminal, close the
program file, and return to direct mode. -/
def prog_file_fini (s : VMState) : VMState :=
  direct_mode { s with cons_is_console := true, prog_file_open := false } 0

/-- find_line: the program store is indexed by lineno - 1; out-of-range
line numbers have no text. -/
def find_line (s : VMState) (lineno : Int) : Option (List Char) :=
  if lineno < 1 ∨ lineno > MAX_LINENO then none
  else s.progstore (lineno - 1).toNat

/-- set_line_ext: transfer the BASIC cursor to the given line.  Line 0
returns to direct mode; range and lookup failures are fatal VM aborts or
BASIC errors depending on `fatal`; `restoring` suppresses the jump to the
statement executor. -/
def set_line_ext (s : VMState) (lineno ptr : Int) (fatal restoring : Bool) :
    Except Fault VMState :=
  if lineno = 0 then
    .ok (direct_mode s ptr)
  else if lineno < 0 ∨ lineno > MAX_LINENO then
    .error (if fatal then .abort "!LINE NUMBER OUT OF RANGE"
            else .basic "LINE NUMBER OUT OF RANGE")
  else if ptr < 0 ∨ ptr ≥ SIZE_LBUF then
    .error (.abort "!LBUF POINTER OUT OF RANGE")
  else
    match find_line s lineno with
    | none => .error (if fatal then .abort "!MISSING LINE"
                      else .basic "MISSING LINE")
    | some _ =>
      .ok { s with lbuf := some lineno, lbuf_ptr := ptr, lineno := lineno,
                   pc := if restoring then s.pc else s.executor_pc }

/-- set_line. -/
def set_line (s : VMState) (lineno ptr : Int) (fatal : Bool) :
    Except Fault VMState :=
  set_line_ext s lineno ptr fatal false

/-- restore_line. -/
def restore_line (s : VMState) (lineno ptr : Int) : Except Fault VMState :=
  set_line_ext s lineno ptr true true

/-- exit_data_mode: remember the DATA cursor, clear `saved_lineno`, and
restore the saved statement cursor. -/
def exit_data_mode (s : VMState) : Except Fault VMState :=
  let lineno := s.saved_lineno
  let s1 := { s with data_lineno := s.lineno, data_lbuf_ptr := s.lbuf_ptr,
                     saved_lineno := 0 }
  restore_line s1 lineno s.saved_lbuf_ptr

/-- basic_error composed with the setjmp(basic_error_env) handler in
tbvm_exec: close any open program file, print `?<msg> ERROR` and, outside
direct mode, ` AT LINE n`, exit DATA mode if active, and resume in direct
mode at the collector entry.  The only way this can fail is a VM abort
while restoring the cursor saved by DATA mode. -/
def basic_error_fn (s : VMState) (msg : List Char) : Except Fault VMState := do
  let s1 := if s.prog_file_open then prog_file_fini s else s
  let co1 := putchar s1.cons '?'
  let co2 := print_cstring co1 msg
  let co3 := print_cstring co2 (" ERROR").toList
  let co4 :=
    if ¬ s1.direct then
      print_integer (print_cstring co3 (" AT LINE ").toList) s1.lineno
    else co3
  let s2 := { s1 with cons := print_crlf co4 }
  let s3 ←
    if s2.saved_lineno ≠ 0 then exit_data_mode s2 else .ok s2
  .ok (direct_mode s3 0)

/-! ## A concrete reference state for witnesses and counterexamples -/

/-- A concrete VM state: freshly initialised, direct mode, empty program
store and heap. -/
def egState : VMState :=
  { direct := true
    lineno := 0
    pc := 0
    collector_pc := 13
    executor_pc := 17
    ondone := 0
    cstk := []
    sbrstk := []
    aestk := []
    vars := fun _ => .num 0
    progstore := fun _ => none
    first_line := 0
    last_line := 0
    lbuf := none
    lbuf_ptr := 0
    saved_lineno := 0
    saved_lbuf_ptr := 0
    data_lineno := 0
    data_lbuf_ptr := 0
    prog_file_open := false
    cons_is_console := true
    cons := ⟨0, []⟩
    heap := ⟨[], 0, 0, false⟩ }

/-! ## Variable routines -/

/-- var_get_number: a slot of the wrong type reads as 0. -/
def var_get_number (s : VMState) (v : Nat) : Int :=
  match s.vars v with
  | .num n => n
  | _ => 0

/-- var_set_number: assigning a number to a non-numeric slot raises
WRONG VALUE TYPE. -/
def var_set_number (s : VMState) (v : Nat) (val : Int) :
    Except Fault VMState :=
  match s.vars v with
  | .num _ => .ok { s with vars := fun i => if i = v then .num val else s.vars i }
  | _ => .error (.basic "WRONG VALUE TYPE")

/-! ## Line selection -/

/-- The scan loop of next_line: the first stored line in
[i, s.last_line], or -1.  The fuel is an upper bound on the number of
iterations (the loop range is within 1..65535). -/
def next_line_scan (s : VMState) (i : Int) (fuel : Nat) : Int :=
  match fuel with
  | 0 => -1
  | fuel + 1 =>
    if i > s.last_line then -1
    else
      match find_line s i with
      | some _ => i
      | none => next_line_scan s (i + 1) fuel

/-- next_line: from direct mode, the first program line; otherwise the
first stored line after the current one; -1 when there is none. -/
def next_line (s : VMState) : Int :=
  let rv : Int :=
    if s.lineno = 0 then s.first_line
    else if s.last_line > 0 then next_line_scan s (s.lineno + 1) 70000
    else -1
  if rv = 0 then -1 else rv

/-- next_statement: advance to the next BASIC line, or back to direct
mode when in direct mode or at the end of the program. -/
def next_statement (s : VMState) : Except Fault VMState :=
  let line := next_line s
  if s.direct ∨ line = -1 then .ok (direct_mode s 0)
  else set_line s line 0 true

/-! ## Subroutine / FOR stack search -/

/-- The var_ref argument of sbrstk_pop: SUBR_VAR_ANYVAR,
SUBR_VAR_SUBROUTINE, or a concrete variable. -/
inductive PopTarget where
  | anyvar
  | sub
  | var (v : Nat)
deriving DecidableEq, Repr

/-- The match condition of the sbrstk_pop scan loop. -/
def frame_matches (t : PopTarget) (sv : SubrVar) : Bool :=
  match t with
  | .anyvar => sv ≠ SubrVar.sub
  | .sub => sv = SubrVar.sub
  | .var v => sv = SubrVar.var v

/-- Scan from the top of the frame stack for the first matching frame;
return it with the stack truncated to keep it (pop_match = false) and to
pop it (pop_match = true). -/
def sbrstk_find (stk : List Subr) (t : PopTarget) :
    Option (Subr × List Subr × List Subr) :=
  match stk with
  | [] => none
  | f :: rest =>
    if frame_matches t f.var then some (f, f :: rest, rest)
    else sbrstk_find rest t

/-- sbrstk_pop: discard any frames above the first match; `none` models
the `return false` path (no match, stack untouched); a missing
subroutine frame raises RETURN WITHOUT GOSUB. -/
def sbrstk_pop (s : VMState) (t : PopTarget) (pop_match : Bool) :
    Except Fault (Option (Subr × VMState)) :=
  match sbrstk_find s.sbrstk t with
  | some (f, keep, popped) =>
    .ok (some (f, { s with sbrstk := if pop_match then popped else keep }))
  | none =>
    if t = .sub then .error (.basic "RETURN WITHOUT GOSUB") else .ok none

/-! ## Arithmetic opcodes (integer-only build) -/

/-- tbvm_div (integer-only build): division by zero raises the BASIC
error; C `/` on int truncates toward zero. -/
def tbvm_div (a b : Int) : Except Fault Int :=
  if b = 0 then .error (.basic "DIVISION BY ZERO") else .ok (Int.tdiv a b)

/-- tbvm_mod (integer-only build): modulus by zero raises the BASIC
error; C `%` on int has the sign of the dividend. -/
def tbvm_mod (a b : Int) : Except Fault Int :=
  if b = 0 then .error (.basic "DIVISION BY ZERO") else .ok (Int.tmod a b)

/-- OPC_DIV_impl (integer-only build); check_math_error is a no-op in
this configuration. -/
def OPC_DIV (s : VMState) : Except Fault VMState := do
  let (num2, s1) ← aestk_pop_number s
  let (num1, s2) ← aestk_pop_number s1
  let q ← tbvm_div num1 num2
  aestk_push_number s2 q

/-- OPC_MOD_impl (integer-only build). -/
def OPC_MOD (s : VMState) : Except Fault VMState := do
  let (num2, s1) ← aestk_pop_number s
  let (num1, s2) ← aestk_pop_number s1
  let q ← tbvm_mod num1 num2
  aestk_push_number s2 q

/-! ## Arithmetic opcodes (floating-point build)

The double-precision expression stack is modelled as a list of exact
rationals; the host's accrued-exception word (the result of
io_math_exc, a bitmask of TBVM_EXC_DIV0 = 1 and TBVM_EXC_ARITH = 2) is
an oracle input. -/

/-- check_math_error (floating-point build). -/
def check_math_error_float (exc : Nat) : Except Fault Unit :=
  if exc = 0 then .ok ()
  else if exc &&& 1 ≠ 0 then .error (.basic "DIVISION BY ZERO")
  else if exc &&& 2 ≠ 0 then .error (.basic "ARITHMETIC EXCEPTION")
  else .ok ()

/-- Stand-in for libm fmod on the rational model: `a - b * trunc(a/b)`
for nonzero b.  The hardware fmod with a zero divisor yields NaN, which
has no rational counterpart; the stand-in returns 0 there.  OPC_MOD's
control flow never consults this value. -/
def fmodModel (a b : ℚ) : ℚ :=
  if b = 0 then 0 else a - b * ((a / b).floor : ℚ)

/-- OPC_DIV_impl (floating-point build): tbvm_div is a plain hardware
division and the only zero-divisor handling is the host exception check
afterwards. -/
def OPC_DIV_float (stk : List ℚ) (exc : Nat) : Except Fault (List ℚ) :=
  match stk with
  | num2 :: num1 :: rest => do
    let stk' := (num1 / num2) :: rest
    let _ ← check_math_error_float exc
    .ok stk'
  | _ => .error (.abort "!EXPRESSION STACK UNDERFLOW")

/-- OPC_MOD_impl (floating-point build): tbvm_mod is fmod, and the
implementation performs no exception check at all. -/
def OPC_MOD_float (stk : List ℚ) : Except Fault (List ℚ) :=
  match stk with
  | num2 :: num1 :: rest => .ok (fmodModel num1 num2 :: rest)
  | _ => .error (.abort "!EXPRESSION STACK UNDERFLOW")

/-! ## FOR / NXTFOR / STEP / SAV -/

/-- OPC_FOR_impl: pop end, start and the variable; bind the frame to
next_line; default step 1; push unconditionally; initialise the variable
to the start value.  (The C frame's lbuf_ptr is left uninitialised and
never read for FOR frames; the model uses 0.) -/
def OPC_FOR (s : VMState) : Except Fault VMState := do
  let (end_val, s1) ← aestk_pop_number s
  let (start_val, s2) ← aestk_pop_number s1
  let (v, s3) ← aestk_pop_varref s2
  let subr : Subr :=
    { var := .var v, lineno := next_line s3, lbuf_ptr := 0,
      start_val := start_val, end_val := end_val, step := 1 }
  let s4 ← sbrstk_push s3 subr
  var_set_number s4 v start_val

/-- OPC_STEP_impl: peek the innermost frame, pop the step value, reject
stepping a subroutine frame and a zero step, and record the step. -/
def OPC_STEP (s : VMState) : Except Fault VMState := do
  match s.sbrstk with
  | [] => .error (.abort "!SUBRSTK STACK EMPTY")
  | top :: rest => do
    let (step, s1) ← aestk_pop_number s
    if top.var = SubrVar.sub then
      .error (.abort "!STEPPING A SUBROUTINE")
    else if step = 0 then
      .error (.basic "ILLEGAL QUANTITY")
    else
      .ok { s1 with sbrstk := { top with step := step } :: rest }

/-- OPC_SAV_impl: push a Subroutine frame recording the return line
(0 from direct mode); designated initialisers zero the other fields. -/
def OPC_SAV (s : VMState) : Except Fault VMState :=
  sbrstk_push s
    { var := .sub, lineno := if s.direct then 0 else s.lineno,
      lbuf_ptr := 0, start_val := 0, end_val := 0, step := 0 }

/-- OPC_NXTFOR_impl: pop either a variable reference or a number
(any-var); find the innermost matching FOR frame, discarding inner
frames; step the variable; loop back to the frame's line, or on
termination pop the frame and advance to the next statement. -/
def OPC_NXTFOR (s : VMState) : Except Fault VMState := do
  let (value, s1) ← aestk_pop_value s none
  let t ← match value with
    | .varref r => Except.ok (PopTarget.var r)
    | .num _ => Except.ok PopTarget.anyvar
    | _ => .error (.abort "!INVALID NXTFOR")
  match ← sbrstk_pop s1 t false with
  | none => .error (.basic "NEXT WITHOUT FOR")
  | some (subr, s2) =>
    let v : Nat :=
      match t with
      | .var v => v
      | _ => match subr.var with
             | .var v => v
             | .sub => 0
    let newval := var_get_number s2 v + subr.step
    let done :=
      if subr.step < 0 then newval < subr.end_val else newval > subr.end_val
    if done then do
      let s3 ← next_statement s2
      match ← sbrstk_pop s3 (.var v) true with
      | some (_, s4) => .ok s4
      | none => .ok s3
    else do
      let s3 ← var_set_number s2 v newval
      set_line s3 subr.lineno 0 true

/-! ## RND -/

/-- RAND_MAX of the host C library. -/
def RAND_MAX : Nat := 2147483647

/-- OPC_RND_impl (integer-only build).  `r` is the value returned by
rand_r, an oracle in [0, RAND_MAX]. -/
def OPC_RND (s : VMState) (r : Nat) : Except Fault VMState := do
  let (num, s1) ← aestk_pop_number s
  if num > 1 then
    let unum : Nat := num.toNat
    aestk_push_number s1 (((r / (RAND_MAX / unum + 1)) + 1 : Nat) : Int)
  else if num = 0 then
    aestk_push_number s1 ((r / RAND_MAX : Nat) : Int)
  else
    .error (.basic "NUMBER OUT OF RANGE")

/-- OPC_RND_impl (floating-point build) over the rational stack model;
the divisions in the `> 1` arm are C integer divisions, the division in
the `== 0` arm is a hardware double division, modelled exactly. -/
def OPC_RND_float (stk : List ℚ) (r : Nat) : Except Fault (List ℚ) :=
  match stk with
  | num :: rest =>
    if num > 1 then
      let unum : Nat := num.floor.toNat
      .ok ((((r / (RAND_MAX / unum + 1)) + 1 : Nat) : ℚ) :: rest)
    else if num = 0 then
      .ok (((r : ℚ) / (RAND_MAX : ℚ)) :: rest)
    else
      .error (.basic "NUMBER OUT OF RANGE")
  | _ => .error (.abort "!EXPRESSION STACK UNDERFLOW")

/-! ## Program store: insertion, deletion and the bookends -/

/-- The upward rescan loop of update_bookends: the first line in
[i, MAX_LINENO] whose store entry is non-null, or 0.  The fuel bounds the
iteration count (the C loop runs at most MAX_LINENO times). -/
def scan_up (s : VMState) (i : Int) (fuel : Nat) : Int :=
  match fuel with
  | 0 => 0
  | fuel + 1 =>
    if i > MAX_LINENO then 0
    else if (s.progstore (i - 1).toNat).isSome then i
    else scan_up s (i + 1) fuel

/-- The downward rescan loop of update_bookends: the last line in
[1, i] whose store entry is non-null, or 0. -/
def scan_down (s : VMState) (i : Int) (fuel : Nat) : Int :=
  match fuel with
  | 0 => 0
  | fuel + 1 =>
    if i < 1 then 0
    else if (s.progstore (i - 1).toNat).isSome then i
    else scan_down s (i - 1) fuel

/-- update_bookends, called after the store entry for `lineno` has been
replaced; `inserted` is `cp != NULL`.  On insertion the bookends widen to
cover `lineno`; on deletion a deleted bookend is rescanned (both become 0
when the store has emptied). -/
def update_bookends (s : VMState) (lineno : Int) (inserted : Bool) : VMState :=
  if inserted then
    { s with
      first_line :=
        if s.first_line < 1 ∨ s.first_line > lineno then lineno else s.first_line
      last_line :=
        if s.last_line < 1 ∨ s.last_line < lineno then lineno else s.last_line }
  else if lineno = s.first_line then
    let f := scan_up s lineno 70000
    if f = 0 then
      { s with first_line := 0, last_line := 0 }
    else
      let s1 := { s with first_line := f }
      if lineno = s1.last_line then
        { s1 with last_line := scan_down s1 lineno 70000 }
      else s1
  else if lineno = s.last_line then
    { s with last_line := scan_down s lineno 70000 }
  else s

/-- insert_line: `text` is the collected line body after the line number
with leading whitespace skipped, up to (not including) the end-of-line.
An empty body deletes the line; otherwise the body plus its end-of-line
is stored.  The bookends are updated afterwards.  (The C function also
invalidates static strings; that is modelled on the heap flag.) -/
def insert_line (s : VMState) (lineno : Int) (text : List Char) : VMState :=
  let cp : Option (List Char) :=
    if text.length = 0 then none else some (text ++ ['\n'])
  let s1 :=
    { s with
      progstore := fun i => if i = (lineno - 1).toNat then cp else s.progstore i
      heap := { s.heap with
                strs := if s.heap.staticValid then
                          s.heap.strs.map (fun p =>
                            if p.2.lineno ≠ 0 then (p.1, { p.2 with sval := [] })
                            else p)
                        else s.heap.strs
                staticValid := false } }
  update_bookends s1 lineno cp.isSome

/-- The program-store invariant stated by the specification: every stored
line lies between the bookends, and the bookends reference non-null
entries or are both zero. -/
def progInv (s : VMState) : Prop :=
  (∀ n : Nat, n < 65535 → (s.progstore n).isSome →
    s.first_line ≤ (n : Int) + 1 ∧ ((n : Int) + 1) ≤ s.last_line) ∧
  ((s.first_line = 0 ∧ s.last_line = 0) ∨
   (1 ≤ s.first_line ∧ s.first_line ≤ MAX_LINENO ∧
    (s.progstore (s.first_line - 1).toNat).isSome ∧
    1 ≤ s.last_line ∧ s.last_line ≤ MAX_LINENO ∧
    (s.progstore (s.last_line - 1).toNat).isSome))

/-! ## SBSTR -/

/-- The string operand of OPC_SBSTR as the opcode sees it: the pointed-to
bytes, recorded length and origin line number. -/
structure StrVal where
  sval : List Char
  len : Nat
  lineno : Int
deriving DecidableEq, Repr

/-- The per-mode argument handling of OPC_SBSTR_impl, producing the final
(0-based) starting position and length.  For mode 0, `a` is the popped
length and `b` the popped position; for modes 1 and 2, `a` is the single
popped position resp. length argument. -/
def sbstr_pos_len (mode a b : Int) (slen : Nat) : Except Fault (Int × Int) :=
  if mode = 0 then
    if b < 1 ∨ a < 0 then .error (.basic "ILLEGAL QUANTITY")
    else .ok (b - 1, a)
  else if mode = 1 then
    if a < 1 then .error (.basic "ILLEGAL QUANTITY")
    else
      let pos := a - 1
      .ok (pos, if pos ≥ (slen : Int) then 0 else (slen : Int) - pos)
  else if mode = 2 then
    if a < 0 then .error (.basic "ILLEGAL QUANTITY")
    else .ok (if a > (slen : Int) then 0 else (slen : Int) - a, a)
  else
    .error (.abort "!ILLEGAL SBSTR MODE")

/-- The tail of OPC_SBSTR_impl after the operands are popped: a zero
resulting length pushes the shared empty string and touches nothing;
otherwise a substring is allocated (inheriting the origin line number,
so a substring of a static string is static). -/
def OPC_SBSTR_core (h : Heap) (mode a b : Int) (sv : StrVal) :
    Except Fault (StrRef × Heap) := do
  let (pos, len) ← sbstr_pos_len mode a b sv.len
  if len = 0 then
    .ok (none, h)
  else
    .ok (string_alloc h ((sv.sval.drop pos.toNat).take len.toNat)
          len.toNat sv.lineno)

/-! ## Heap well-formedness (the strings_need_gc accounting) -/

/-- The heap bookkeeping invariant: node identities are distinct and
fresh, and `strings_need_gc` counts exactly the zero-reference strings
on the heap list. -/
def heapWF (h : Heap) : Prop :=
  (h.strs.map Prod.fst).Nodup ∧
  (∀ p ∈ h.strs, p.1 < h.nextId) ∧
  h.needGc = h.strs.countP (fun p => p.2.refs = 0)

/-! ## HEX -/

/-- UINT_MAX. -/
def UINT_MAX : Int := 4294967295

/-- One hexadecimal digit as OPC_HEX_impl prints it: '0' + n for n ≤ 9,
'A' + (n - 10) otherwise. -/
def hexDigitChar (n : Nat) : Char :=
  if n ≤ 9 then Char.ofNat (48 + n) else Char.ofNat (65 + (n - 10))

/-- The do/while digit loop of OPC_HEX_impl (digits accumulate to the
left of `acc`; at least one digit is produced). -/
def hexLoop (unum : Nat) (acc : List Char) : List Char :=
  let acc' := hexDigitChar (unum % 16) :: acc
  let u' := unum / 16
  if u' = 0 then acc' else hexLoop u' acc'
termination_by unum
decreasing_by
  exact Nat.div_lt_self (by omega) (by omega)

/-- The hexadecimal digit string OPC_HEX_impl builds for `unum`,
including the extra leading '0' that evens out an odd digit count. -/
def OPC_HEX_digits (unum : Nat) : List Char :=
  let ds := hexLoop unum []
  if ds.length % 2 = 1 then '0' :: ds else ds

/-- OPC_HEX_impl (integer-only build): a negative argument is an illegal
quantity (integer_p always holds in this build, and the comparison
against UINT_MAX is an int-vs-unsigned comparison that can never be
true); otherwise the digit string is allocated and pushed. -/
def OPC_HEX (s : VMState) : Except Fault VMState := do
  let (num, s1) ← aestk_pop_number s
  if num < 0 then
    .error (.basic "ILLEGAL QUANTITY")
  else
    let ds := OPC_HEX_digits num.toNat
    let (r, h') := string_alloc s1.heap ds ds.length 0
    aestk_push_value { s1 with heap := h' } (.str r)

/-- The number denoted by a string of hexadecimal digits (the reading
direction of the claim: most significant digit first). -/
def fromHexDigits (ds : List Char) : Nat :=
  ds.foldl (fun acc c =>
    acc * 16 + (if c.toNat ≤ 57 then c.toNat - 48 else c.toNat - 55)) 0

/-! ## STR / VAL (integer-only build) -/

/-- INT_MAX / INT_MIN. -/
def INT_MAX : Int := 2147483647

def INT_MIN : Int := -2147483648

/-- format_number in the integer-only build is format_integer with no
width: sprintf "%d". -/
def format_number_int (n : Int) : List Char := intToChars n

/-- The isspace set strtol skips. -/
def isSpaceChar (c : Char) : Bool :=
  c = ' ' ∨ c = '\t' ∨ c = '\n' ∨ c = '\x0b' ∨ c = '\x0c' ∨ c = '\r'

/-- Decimal digit test. -/
def isDigitChar (c : Char) : Bool := 48 ≤ c.toNat ∧ c.toNat ≤ 57

/-- The digit-consuming loop of strtol/strtod: exact accumulated value
and the remaining input. -/
def parseDigits (cs : List Char) (acc : Nat) : Nat × List Char :=
  match cs with
  | [] => (acc, [])
  | c :: rest =>
    if isDigitChar c then parseDigits rest (acc * 10 + (c.toNat - 48))
    else (acc, c :: rest)

/-- Model of strtol(cs, &end, 10) with a 64-bit long: the converted
value, the number of characters consumed (0 when no conversion could be
performed) and the ERANGE flag.  The value is kept exact; ERANGE is
reported when it falls outside the long range. -/
def strtol_model (cs : List Char) : Int × Nat × Bool :=
  let cs1 := cs.dropWhile isSpaceChar
  let neg : Bool := cs1.head? = some '-'
  let cs2 : List Char :=
    if cs1.head? = some '-' ∨ cs1.head? = some '+' then cs1.tail else cs1
  match cs2 with
  | [] => (0, 0, false)
  | c :: _ =>
    if isDigitChar c then
      let (v, rest) := parseDigits cs2 0
      let val : Int := if neg then -(v : Int) else (v : Int)
      let consumed := cs.length - rest.length
      (val, consumed, val > 9223372036854775807 ∨ val < -9223372036854775808)
    else
      (0, 0, false)

/-- tbvm_strtonum (integer-only build): fails on ERANGE, on an empty
conversion, and on a value outside the int range. -/
def tbvm_strtonum_int (cs : List Char) : Option Int × Nat :=
  let (val, consumed, erange) := strtol_model cs
  if erange ∨ consumed = 0 then (none, consumed)
  else if val > INT_MAX ∨ val < INT_MIN then (none, consumed)
  else (some val, consumed)

/-- The value OPC_VAL_impl computes from the bytes of its string operand
(integer-only build): a failed conversion that consumed nothing yields 0,
any other failure raises ILLEGAL QUANTITY. -/
def OPC_VAL_value (cs : List Char) : Except Fault Int :=
  match tbvm_strtonum_int cs with
  | (some v, _) => .ok v
  | (none, 0) => .ok 0
  | (none, _) => .error (.basic "ILLEGAL QUANTITY")

/-! ## format_number / strtod (floating-point build)

Finite IEEE-754 doubles are modelled as the exact rationals they denote;
`isDoubleQ` carves out the representable set.  sprintf("%.9G") and
sprintf("%.8E") are modelled per C99 7.21.6.1 with round-to-nearest,
ties-to-even (the default rounding direction), and strtod as exact
decimal parsing followed by correct rounding to the nearest double. -/

/-- The finite doubles, as exact rationals. -/
def isDoubleQ (q : ℚ) : Prop :=
  ∃ m : ℤ, ∃ e : ℤ,
    m.natAbs ≤ 2 ^ 53 - 1 ∧ -1074 ≤ e ∧ e ≤ 971 ∧ q = (m : ℚ) * (2 : ℚ) ^ e

/-- Round to the nearest integer, ties to even. -/
def rhe (q : ℚ) : ℤ :=
  let f := q.floor
  let frac := q - (f : ℚ)
  if frac < 1 / 2 then f
  else if frac > 1 / 2 then f + 1
  else if f % 2 = 0 then f else f + 1

/-- Search for the decimal exponent of 0 < q < 1: minus the first j ≥ 1
with q * 10^j ≥ 1. -/
def decExpNeg (q : ℚ) (j : Nat) (fuel : Nat) : ℤ :=
  match fuel with
  | 0 => 0
  | fuel + 1 =>
    if q * 10 ^ j ≥ 1 then -(j : ℤ) else decExpNeg q (j + 1) fuel

/-- The decimal exponent X of q > 0: 10^X ≤ q < 10^(X+1). -/
def decExp (q : ℚ) : ℤ :=
  if 1 ≤ q then ((natToChars q.floor.toNat).length : ℤ) - 1
  else decExpNeg q 1 400

/-- Round 0 < q to 9 significant decimal digits: the digit block in
[10^8, 10^9) and the decimal exponent (bumped when rounding carries to
10^9). -/
def round9 (q : ℚ) : ℤ × ℤ :=
  let X := decExp q
  let n := rhe (q * (10 : ℚ) ^ ((8 : ℤ) - X))
  if n = 10 ^ 9 then (10 ^ 8, X + 1) else (n, X)

/-- Drop the trailing zeros of a fractional digit block (the %G
trailing-zero removal). -/
def stripZeros (ds : List Char) : List Char :=
  (ds.reverse.dropWhile (fun c => c = '0')).reverse

/-- Integer part plus fractional block with %G stripping: the decimal
point disappears when no fractional digits remain. -/
def withFrac (ip fp : List Char) : List Char :=
  let f := stripZeros fp
  if f = [] then ip else ip ++ '.' :: f

/-- The exponent suffix of the e style: sign and at least two digits. -/
def expChars (x : ℤ) : List Char :=
  let ds := natToChars x.natAbs
  (if x < 0 then '-' else '+') :: (if ds.length < 2 then '0' :: ds else ds)

/-- Model of sprintf(buf, "%.9G", q) for a finite double q. -/
def formatG9 (q : ℚ) : List Char :=
  if q = 0 then ['0']
  else
    let sgn : List Char := if q < 0 then ['-'] else []
    let (n9, x) := round9 |q|
    let ds := natToChars n9.toNat
    if -4 ≤ x ∧ x < 9 then
      if 0 ≤ x then
        sgn ++ withFrac (ds.take (x.toNat + 1)) (ds.drop (x.toNat + 1))
      else
        sgn ++ withFrac ['0'] (List.replicate (-x - 1).toNat '0' ++ ds)
    else
      sgn ++ withFrac (ds.take 1) (ds.drop 1) ++ 'E' :: expChars x

/-- Model of sprintf(buf, "%.8E", q) for a finite double q. -/
def formatE8 (q : ℚ) : List Char :=
  if q = 0 then ('0' :: '.' :: List.replicate 8 '0') ++ 'E' :: expChars 0
  else
    let sgn : List Char := if q < 0 then ['-'] else []
    let (n9, x) := round9 |q|
    let ds := natToChars n9.toNat
    sgn ++ ds.take 1 ++ '.' :: ds.drop 1 ++ 'E' :: expChars x

/-- format_number (floating-point build): `%.8E` for 0 < |q| < 0.01,
otherwise `%.9G`. -/
def format_number_float (q : ℚ) : List Char :=
  if 0 < |q| ∧ |q| < 1 / 100 then formatE8 q else formatG9 q

/-- The binary exponent of 0 < a < 1: minus the first j ≥ 1 with
a * 2^j ≥ 1 (fueled search). -/
def binExpNeg (a : ℚ) (j : Nat) (fuel : Nat) : ℤ :=
  match fuel with
  | 0 => 0
  | fuel + 1 =>
    if a * 2 ^ j ≥ 1 then -(j : ℤ) else binExpNeg a (j + 1) fuel

/-- The binary exponent of a ≥ 1: the first j with a < 2^(j+1)
(fueled search). -/
def binExpPos (a : ℚ) (j : Nat) (fuel : Nat) : ℤ :=
  match fuel with
  | 0 => 0
  | fuel + 1 =>
    if a < 2 ^ (j + 1) then (j : ℤ) else binExpPos a (j + 1) fuel

/-- The binary exponent of a > 0: the e with 2^e ≤ a < 2^(e+1). -/
def binExp (a : ℚ) : ℤ :=
  if 1 ≤ a then binExpPos a 0 1200 else binExpNeg a 1 1200

/-- Correctly round an exact rational to the nearest double
(ties-to-even); subnormals quantise at 2^-1074.  Overflow to infinity is
outside the model (the strtod caller treats it as ERANGE). -/
def roundToDouble (q : ℚ) : ℚ :=
  if q = 0 then 0
  else
    let s : ℚ := if q < 0 then -1 else 1
    let a := |q|
    let e := binExp a
    let quantum : ℤ := max (e - 52) (-1074)
    s * (rhe (a / (2 : ℚ) ^ quantum) : ℚ) * (2 : ℚ) ^ quantum

/-- The optional fraction part after the '.' of a strtod subject:
digits with their count (for the power-of-ten scale). -/
def parseFrac (cs : List Char) : Nat × Nat × List Char :=
  match cs with
  | '.' :: rest =>
    let ds := rest.takeWhile isDigitChar
    ((parseDigits ds 0).1, ds.length, rest.drop ds.length)
  | _ => (0, 0, cs)

/-- The optional exponent part of a strtod subject. -/
def parseExp (cs : List Char) : ℤ × List Char :=
  match cs with
  | c :: rest =>
    if c = 'e' ∨ c = 'E' then
      let neg : Bool := rest.head? = some '-'
      let cs2 : List Char :=
        if rest.head? = some '-' ∨ rest.head? = some '+' then rest.tail
        else rest
      match cs2 with
      | d :: _ =>
        if isDigitChar d then
          let (v, rest2) := parseDigits cs2 0
          (if neg then -(v : ℤ) else (v : ℤ), rest2)
        else (0, c :: rest)
      | [] => (0, c :: rest)
    else (0, c :: rest)
  | [] => (0, [])

/-- Model of strtod: the exact decimal value and the characters
consumed (0 when no conversion was possible).  Hexadecimal, infinity and
nan subjects are not modelled (format_number never produces them). -/
def strtod_exact (cs : List Char) : ℚ × Nat :=
  let cs1 := cs.dropWhile isSpaceChar
  let neg : Bool := cs1.head? = some '-'
  let cs2 : List Char :=
    if cs1.head? = some '-' ∨ cs1.head? = some '+' then cs1.tail else cs1
  let intDigits := cs2.takeWhile isDigitChar
  let cs3 := cs2.drop intDigits.length
  if intDigits.length = 0 ∧ (parseFrac cs3).2.1 = 0 then (0, 0)
  else
    let ipart := (parseDigits intDigits 0).1
    let (fpart, fdigits, cs4) := parseFrac cs3
    let (e10, cs5) := parseExp cs4
    let mag : ℚ :=
      ((ipart : ℚ) + (fpart : ℚ) / 10 ^ fdigits) * (10 : ℚ) ^ e10
    ((if neg then -mag else mag), cs.length - cs5.length)

/-- The value OPC_VAL_impl computes from the bytes of its string operand
in the floating-point build: strtod followed by the empty-conversion /
error split of tbvm_strtonum and OPC_VAL. -/
def OPC_VAL_value_float (cs : List Char) : Except Fault ℚ :=
  let (v, consumed) := strtod_exact cs
  if consumed = 0 then .ok 0 else .ok (roundToDouble v)

/-- The double 1 + 2^-52, the smallest double above 1. -/
def onePlusUlp : ℚ := 1 + (1 : ℚ) / 2 ^ 52

/-! ## Further concrete states for witnesses and counterexamples -/

/-- A state whose control stack is full. -/
def egFullCstk : VMState := { egState with cstk := List.replicate SIZE_CSTK 0 }

/-- A GOSUB frame. -/
def egSubrGosub : Subr := ⟨.sub, 0, 0, 0, 0, 0⟩

/-- A FOR frame for variable A with start = end = 5 bound to line 10,
with the loop body on line 20 and NEXT on line 30. -/
def egSubrFor : Subr := ⟨.var 0, 20, 0, 5, 5, 1⟩

/-- A state whose subroutine stack is full. -/
def egFullSbr : VMState :=
  { egState with sbrstk := List.replicate SIZE_SBRSTK egSubrGosub }

/-- A state whose expression stack is full. -/
def egFullAestk : VMState :=
  { egState with aestk := List.replicate SIZE_AESTK (.num 0) }

/-- A running-mode state in DATA mode with program lines 10/20/30/40,
for exercising the BASIC error recovery path. -/
def egDataState : VMState :=
  { egState with
    direct := false
    lineno := 20
    saved_lineno := 10
    saved_lbuf_ptr := 3
    first_line := 10
    last_line := 40
    progstore := fun i =>
      if i = 9 ∨ i = 19 ∨ i = 29 ∨ i = 39 then some ['\n'] else none }

/-- A running-mode state about to execute NXTFOR at line 30: the frame
of `egSubrFor` is innermost, variable A holds the end value 5, and the
top of the expression stack names A. -/
def egNxtforState : VMState :=
  { egDataState with
    lineno := 30
    saved_lineno := 0
    aestk := [.varref 0]
    sbrstk := [egSubrFor, egSubrGosub]
    vars := fun i => if i = 0 then .num 5 else .num 0 }

/-- A running-mode state about to execute FOR at line 10: the expression
stack holds the end value 5, the start value 5 and a reference to
variable A, ready for `FOR A = 5 TO 5`. -/
def egForState : VMState :=
  { egDataState with
    lineno := 10
    saved_lineno := 0
    aestk := [.num 5, .num 5, .varref 0] }

/-- A small well-formed heap: one retained string and one zero-reference
string. -/
def egHeap : Heap :=
  ⟨[(0, ⟨1, 2, 0, ['a', 'b']⟩), (1, ⟨0, 1, 0, ['c']⟩)], 2, 1, false⟩

end TBVM

namespace TBVM

/-! # Theorems -/

/-! ## Generic helper lemmas -/

theorem putchar_of_ne_tab (c : Cons) (ch : Char) (h : ch ≠ '\t') :
    putchar c ch =
      ⟨if ch = '\n' then 0 else c.column + 1, c.out ++ [ch]⟩ := by
  simp [putchar, putchar0, h]

theorem print_cstring_out (msg : List Char) (c : Cons)
    (h : ∀ ch ∈ msg, ch ≠ '\t') :
    (print_cstring c msg).out = c.out ++ msg := by
  induction msg generalizing c with
  | nil => simp [print_cstring]
  | cons ch rest ih =>
    have hch : ch ≠ '\t' := h ch (by simp)
    have hrest : ∀ x ∈ rest, x ≠ '\t' := fun x hx => h x (by simp [hx])
    simp only [print_cstring, List.foldl_cons]
    rw [show (List.foldl putchar (putchar c ch) rest) =
          print_cstring (putchar c ch) rest from rfl,
        ih _ hrest, putchar_of_ne_tab c ch hch]
    simp

theorem digitChar_ne_tab (d : Nat) (hd : d < 10) : Nat.digitChar d ≠ '\t' := by
  interval_cases d <;> decide

theorem decChars_mem (fuel : Nat) : ∀ (n : Nat) (acc : List Char),
    ∀ ch ∈ decChars fuel n acc,
      ch ∈ acc ∨ ∃ d, d < 10 ∧ ch = Nat.digitChar d := by
  induction fuel with
  | zero => intro n acc ch hch; exact Or.inl hch
  | succ f ih =>
    intro n acc ch hch
    by_cases h0 : n = 0
    · simp only [decChars, if_pos h0] at hch
      exact Or.inl hch
    · simp only [decChars, if_neg h0] at hch
      rcases ih (n / 10) _ ch hch with hacc | hd
      · rcases List.mem_cons.mp hacc with rfl | h2
        · exact Or.inr ⟨n % 10, Nat.mod_lt _ (by omega), rfl⟩
        · exact Or.inl h2
      · exact Or.inr hd

theorem natToChars_ne_tab (n : Nat) : ∀ ch ∈ natToChars n, ch ≠ '\t' := by
  intro ch hch
  by_cases h0 : n = 0
  · simp [natToChars, h0] at hch
    subst hch
    decide
  · simp only [natToChars, if_neg h0] at hch
    rcases decChars_mem 30 n [] ch hch with h | ⟨d, hd, rfl⟩
    · simp at h
    · exact digitChar_ne_tab d hd

theorem intToChars_ne_tab (n : Int) : ∀ ch ∈ intToChars n, ch ≠ '\t' := by
  intro ch hch
  by_cases h : n < 0
  · simp [intToChars, h] at hch
    rcases hch with rfl | hch
    · decide
    · exact natToChars_ne_tab _ ch hch
  · simp [intToChars, h] at hch
    exact natToChars_ne_tab _ ch hch

/-! ## C1: stack overflow reporting -/

/-- C1, counterexample: a CALL push onto a full control stack is reported
as a VM abort ("!CONTROL STACK OVERFLOW"), not as a BASIC error — the
claim that overflow of every one of the three stacks is a BASIC error is
false for the control stack. -/
theorem claim1_counterexample :
    cstk_push egFullCstk 0 = .error (.abort "!CONTROL STACK OVERFLOW") := by
  rfl

/-- C1, amended: overflow of the subroutine/frame stack (SAV and FOR
pushes) and of the expression stack is reported as a BASIC error
(TOO MANY GOSUBS / TOO MANY FOR LOOPS resp. EXPRESSION TOO COMPLEX),
while overflow of the control stack (CALL pushes) is a VM abort. -/
theorem claim1_amended (s : VMState) (v : Nat) (subr : Subr) (val : Value) :
    (s.cstk.length = SIZE_CSTK →
      cstk_push s v = .error (.abort "!CONTROL STACK OVERFLOW")) ∧
    (s.sbrstk.length = SIZE_SBRSTK →
      sbrstk_push s subr =
        .error (.basic (if subr.var = .sub then "TOO MANY GOSUBS"
                        else "TOO MANY FOR LOOPS"))) ∧
    (s.aestk.length = SIZE_AESTK → value_valid_p val →
      aestk_push_value s val = .error (.basic "EXPRESSION TOO COMPLEX")) := by
  refine ⟨fun h => ?_, fun h => ?_, fun h hv => ?_⟩
  · simp [cstk_push, h]
  · by_cases hv : subr.var = .sub <;> simp [sbrstk_push, h, hv]
  · simp [aestk_push_value, h, hv]

/-- C1 witness: the amended theorem at concrete full stacks. -/
theorem claim1_amended_witness :
    cstk_push egFullCstk 0 = .error (.abort "!CONTROL STACK OVERFLOW") ∧
    sbrstk_push egFullSbr egSubrGosub = .error (.basic "TOO MANY GOSUBS") ∧
    sbrstk_push egFullSbr egSubrFor = .error (.basic "TOO MANY FOR LOOPS") ∧
    aestk_push_value egFullAestk (.num 0) =
      .error (.basic "EXPRESSION TOO COMPLEX") := by
  refine ⟨(claim1_amended egFullCstk 0 egSubrGosub (.num 0)).1 (by decide),
    ?_, ?_,
    (claim1_amended egFullAestk 0 egSubrGosub (.num 0)).2.2 (by decide)
      (by decide)⟩
  · simpa using
      (claim1_amended egFullSbr 0 egSubrGosub (.num 0)).2.1 (by decide)
  · simpa using
      (claim1_amended egFullSbr 0 egSubrFor (.num 0)).2.1 (by decide)

/-! ## C3: division and modulus by zero -/

/-- C3, counterexample: in the floating-point build, the MOD opcode with
a zero divisor performs the hardware fmod and pushes the result — no
BASIC error of any kind is raised, contradicting the claim that MOD by
zero raises DIVISION BY ZERO in both build configurations. -/
theorem claim3_counterexample :
    OPC_MOD_float [0, 7] = .ok [fmodModel 7 0] ∧ fmodModel 7 0 = 0 := by
  exact ⟨rfl, rfl⟩

/-- C3, amended: in the integer-only build DIV and MOD with a zero
divisor raise the DIVISION BY ZERO BASIC error; in the floating-point
build DIV raises a BASIC error only as dictated by the host's
math-exception word checked afterwards (DIVISION BY ZERO for the
divide-by-zero flag, ARITHMETIC EXCEPTION for the arithmetic flag,
nothing when no flag is set), and MOD pushes the fmod result without any
exception check. -/
theorem claim3_amended (s : VMState) (a : Int) (y : ℚ) (rest : List Value)
    (stk : List ℚ) (exc : Nat) :
    (s.aestk = .num 0 :: .num a :: rest →
      OPC_DIV s = .error (.basic "DIVISION BY ZERO")) ∧
    (s.aestk = .num 0 :: .num a :: rest →
      OPC_MOD s = .error (.basic "DIVISION BY ZERO")) ∧
    (exc &&& 1 ≠ 0 →
      OPC_DIV_float (0 :: y :: stk) exc = .error (.basic "DIVISION BY ZERO")) ∧
    (exc &&& 1 = 0 → exc &&& 2 ≠ 0 →
      OPC_DIV_float (0 :: y :: stk) exc =
        .error (.basic "ARITHMETIC EXCEPTION")) ∧
    (exc = 0 → OPC_DIV_float (0 :: y :: stk) exc = .ok ((y / 0) :: stk)) ∧
    OPC_MOD_float (0 :: y :: stk) = .ok (fmodModel y 0 :: stk) := by
  refine ⟨fun h => ?_, fun h => ?_, fun h => ?_, fun ha hb => ?_,
    fun h => ?_, rfl⟩
  · simp [OPC_DIV, aestk_pop_number, aestk_pop_value, h, isNum, value_release,
      tbvm_div, Bind.bind, Except.bind]
  · simp [OPC_MOD, aestk_pop_number, aestk_pop_value, h, isNum, value_release,
      tbvm_mod, Bind.bind, Except.bind]
  · have h0 : exc ≠ 0 := by intro h0; simp [h0] at h
    have h1 : exc % 2 = 1 := by
      rw [Nat.and_one_is_mod] at h
      omega
    simp [OPC_DIV_float, check_math_error_float, h0, h1, Bind.bind, Except.bind]
  · have h0 : exc ≠ 0 := by
      intro h0
      subst h0
      simp at hb
    simp [OPC_DIV_float, check_math_error_float, h0, ha, hb, Bind.bind,
      Except.bind]
  · simp [OPC_DIV_float, check_math_error_float, h, Bind.bind, Except.bind]

/-- C3 witness: the amended theorem at a division 7 / 0 resp. 7 MOD 0,
with the host reporting the divide-by-zero flag, the arithmetic flag
alone, and no flag. -/
theorem claim3_amended_witness :
    OPC_DIV { egState with aestk := [.num 0, .num 7] } =
      .error (.basic "DIVISION BY ZERO") ∧
    OPC_MOD { egState with aestk := [.num 0, .num 7] } =
      .error (.basic "DIVISION BY ZERO") ∧
    OPC_DIV_float [0, 7] 1 = .error (.basic "DIVISION BY ZERO") ∧
    OPC_DIV_float [0, 7] 2 = .error (.basic "ARITHMETIC EXCEPTION") ∧
    OPC_DIV_float [0, 7] 0 = .ok [(7 : ℚ) / 0] ∧
    OPC_MOD_float [0, 7] = .ok [fmodModel 7 0] := by
  refine ⟨(claim3_amended _ 7 7 [] [] 1).1 rfl,
    (claim3_amended _ 7 7 [] [] 1).2.1 rfl,
    (claim3_amended egState 7 7 [] [] 1).2.2.1 (by decide),
    (claim3_amended egState 7 7 [] [] 2).2.2.2.1 (by decide) (by decide),
    (claim3_amended egState 7 7 [] [] 0).2.2.2.2.1 rfl,
    (claim3_amended egState 7 7 [] [] 0).2.2.2.2.2⟩

/-! ## C8: the shared empty string -/

/-- C8: a zero-length string allocation returns the shared empty-string
singleton and leaves the heap untouched (so the singleton is never
linked into the heap list and the sweep can never free it); retain and
release on the singleton are no-ops; and an SBSTR whose resulting length
is zero pushes the singleton without allocating. -/
theorem claim8_empty_string :
    (∀ (h : Heap) (bytes : List Char) (ln : Int),
      string_alloc h bytes 0 ln = (none, h)) ∧
    (∀ h : Heap, string_retain h none = h) ∧
    (∀ h : Heap, string_release h none = h) ∧
    (∀ (h : Heap) (mode a b : Int) (sv : StrVal) (pos : Int),
      sbstr_pos_len mode a b sv.len = .ok (pos, 0) →
      OPC_SBSTR_core h mode a b sv = .ok (none, h)) := by
  refine ⟨fun h bytes ln => ?_, fun h => rfl, fun h => rfl,
    fun h mode a b sv pos hpl => ?_⟩
  · simp [string_alloc]
  · simp [OPC_SBSTR_core, hpl, Bind.bind, Except.bind]

/-- C8 witness: a zero-length allocation on the example heap, and
MID$("ab", 3) — an SBSTR mode 1 whose 1-based start lies beyond the
string, of resulting length zero. -/
theorem claim8_empty_string_witness :
    string_alloc egHeap [] 0 0 = (none, egHeap) ∧
    string_retain egHeap none = egHeap ∧
    string_release egHeap none = egHeap ∧
    OPC_SBSTR_core egHeap 1 3 0 ⟨['a', 'b'], 2, 0⟩ = .ok (none, egHeap) := by
  exact ⟨claim8_empty_string.1 egHeap [] 0,
    claim8_empty_string.2.1 egHeap,
    claim8_empty_string.2.2.1 egHeap,
    claim8_empty_string.2.2.2 egHeap 1 3 0 ⟨['a', 'b'], 2, 0⟩ 2 rfl⟩

/-! ## C9: HEX -/

theorem hexLoop_unfold (u : Nat) (acc : List Char) :
    hexLoop u acc =
      if u / 16 = 0 then hexDigitChar (u % 16) :: acc
      else hexLoop (u / 16) (hexDigitChar (u % 16) :: acc) := by
  rw [hexLoop]

theorem hexLoop_acc (u : Nat) (acc : List Char) :
    hexLoop u acc = hexLoop u [] ++ acc := by
  induction u using Nat.strong_induction_on generalizing acc with
  | _ u ih =>
    by_cases h0 : u / 16 = 0
    · rw [hexLoop_unfold u acc, hexLoop_unfold u []]
      simp [h0]
    · rw [hexLoop_unfold u acc, hexLoop_unfold u []]
      simp only [h0, if_neg, if_false]
      rw [ih (u / 16) (Nat.div_lt_self (by omega) (by omega))
            (hexDigitChar (u % 16) :: acc),
        ih (u / 16) (Nat.div_lt_self (by omega) (by omega))
          [hexDigitChar (u % 16)]]
      simp

theorem hexLoop_length_pos (u : Nat) : 0 < (hexLoop u []).length := by
  by_cases h0 : u / 16 = 0
  · rw [hexLoop_unfold]
    simp [h0]
  · rw [hexLoop_unfold]
    simp only [h0, if_neg, if_false]
    rw [hexLoop_acc]
    simp

theorem fromHexDigits_snoc (xs : List Char) (c : Char) :
    fromHexDigits (xs ++ [c]) =
      fromHexDigits xs * 16 + (if c.toNat ≤ 57 then c.toNat - 48
                               else c.toNat - 55) := by
  simp [fromHexDigits]

theorem hexDigitChar_val (m : Nat) (hm : m < 16) :
    (if (hexDigitChar m).toNat ≤ 57 then (hexDigitChar m).toNat - 48
     else (hexDigitChar m).toNat - 55) = m := by
  interval_cases m <;> decide

theorem fromHexDigits_hexLoop (u : Nat) :
    fromHexDigits (hexLoop u []) = u := by
  induction u using Nat.strong_induction_on with
  | _ u ih =>
    rw [hexLoop_unfold]
    by_cases h0 : u / 16 = 0
    · have hu : u % 16 = u := by omega
      have hv := hexDigitChar_val (u % 16) (by omega)
      rw [if_pos h0]
      simp only [fromHexDigits, List.foldl_cons, List.foldl_nil, Nat.zero_mul,
        Nat.zero_add]
      rw [hv, hu]
    · simp only [h0, if_neg, if_false]
      rw [hexLoop_acc, fromHexDigits_snoc,
        ih (u / 16) (Nat.div_lt_self (by omega) (by omega)),
        hexDigitChar_val (u % 16) (by omega)]
      omega

theorem fromHexDigits_leading_zero (ds : List Char) :
    fromHexDigits ('0' :: ds) = fromHexDigits ds := by
  simp [fromHexDigits]

theorem OPC_HEX_digits_ne_nil (n : Nat) : OPC_HEX_digits n ≠ [] := by
  have hp := hexLoop_length_pos n
  by_cases h : (hexLoop n []).length % 2 = 1
  · simp [OPC_HEX_digits, h]
  · simp only [OPC_HEX_digits, h, if_neg, if_false]
    exact List.length_pos.mp hp

/-- C9: for a non-negative number representable as an unsigned int, the
HEX opcode builds a digit string of even length denoting exactly that
number (a leading '0' pads an odd digit count), and replaces the popped
number on the expression stack with that string. -/
theorem claim9_hex (n : Nat) (hn : (n : Int) ≤ UINT_MAX) :
    Even (OPC_HEX_digits n).length ∧
    fromHexDigits (OPC_HEX_digits n) = n ∧
    (∀ (s : VMState) (rest : List Value),
      s.aestk = .num (n : Int) :: rest →
      rest.length < SIZE_AESTK →
      ∃ s', OPC_HEX s = .ok s' ∧
        s'.aestk = .str (some s.heap.nextId) :: rest ∧
        s'.heap.strs.head? =
          some (s.heap.nextId,
            ⟨1, (OPC_HEX_digits n).length, 0, OPC_HEX_digits n⟩)) := by
  refine ⟨?_, ?_, fun s rest hstk hlen => ?_⟩
  · by_cases h1 : (hexLoop n []).length % 2 = 1
    · simp [OPC_HEX_digits, h1]
      rw [Nat.even_add_one, Nat.even_iff]
      omega
    · simp [OPC_HEX_digits, h1]
      rw [Nat.even_iff]
      omega
  · by_cases hodd : (hexLoop n []).length % 2 = 1
    · simp [OPC_HEX_digits, hodd, fromHexDigits_leading_zero,
        fromHexDigits_hexLoop]
    · simp [OPC_HEX_digits, hodd, fromHexDigits_hexLoop]
  · have hpos : ¬ ((n : Int) < 0) := not_lt.mpr (Int.natCast_nonneg n)
    have hlen' : ¬ (rest.length = SIZE_AESTK) := by omega
    have hds : ¬ ((OPC_HEX_digits n).length = 0) := by
      simpa using OPC_HEX_digits_ne_nil n
    simp [OPC_HEX, aestk_pop_number, aestk_pop_value, hstk, isNum,
      value_release, Bind.bind, Except.bind, hpos, Int.toNat_natCast,
      string_alloc, hds, aestk_push_value, value_valid_p, hlen',
      value_retain, string_retain]

/-- C9 witness: HEX of 48879 is the even-length string "BEEF", applied
on a state holding 48879 at the top of the expression stack. -/
theorem claim9_hex_witness :
    Even (OPC_HEX_digits 48879).length ∧
    fromHexDigits (OPC_HEX_digits 48879) = 48879 ∧
    (∃ s', OPC_HEX { egState with aestk := [.num 48879] } = .ok s' ∧
      s'.aestk = [.str (some 0)] ∧
      s'.heap.strs.head? =
        some (0, ⟨1, (OPC_HEX_digits 48879).length, 0,
                  OPC_HEX_digits 48879⟩)) := by
  obtain ⟨h1, h2, h3⟩ := claim9_hex 48879 (by decide)
  exact ⟨h1, h2, by
    simpa using h3 { egState with aestk := [.num 48879] } [] rfl (by decide)⟩

/-! ## C10: the strings_need_gc accounting -/

theorem find?_key {l : List (Nat × HStr)} {i : Nat} {p : Nat × HStr}
    (h : l.find? (fun q => q.1 = i) = some p) : p.1 = i := by
  have := List.find?_some h
  simpa using this

theorem map_update_of_no_key {l : List (Nat × HStr)} {i : Nat}
    {f : HStr → HStr} (h : ∀ r ∈ l, r.1 ≠ i) :
    l.map (fun q => if q.1 = i then (q.1, f q.2) else q) = l := by
  induction l with
  | nil => rfl
  | cons q t ih =>
    have hq : q.1 ≠ i := h q (by simp)
    simp only [List.map_cons, if_neg hq, List.cons.injEq, true_and]
    exact ih fun r hr => h r (by simp [hr])

theorem keys_map_update (l : List (Nat × HStr)) (i : Nat) (f : HStr → HStr) :
    (l.map (fun q => if q.1 = i then (q.1, f q.2) else q)).map Prod.fst =
      l.map Prod.fst := by
  induction l with
  | nil => rfl
  | cons q t ih =>
    simp only [List.map_cons, ih, List.cons.injEq, and_true]
    split <;> rfl

theorem countP_zero_update (l : List (Nat × HStr)) (i : Nat) (f : HStr → HStr)
    (p : Nat × HStr) (hnd : (l.map Prod.fst).Nodup)
    (hf : l.find? (fun q => q.1 = i) = some p) :
    (l.map (fun q => if q.1 = i then (q.1, f q.2) else q)).countP
        (fun q => q.2.refs = 0) + (if p.2.refs = 0 then 1 else 0) =
      l.countP (fun q => q.2.refs = 0) +
        (if (f p.2).refs = 0 then 1 else 0) := by
  induction l with
  | nil => cases hf
  | cons q t ih =>
    by_cases hq : q.1 = i
    · have hfq : (q :: t).find? (fun r => r.1 = i) = some q :=
        List.find?_cons_of_pos _ (by simpa using hq)
      have hp : p = q := by
        rw [hfq] at hf
        exact (Option.some_inj.mp hf).symm
      subst hp
      have hnone : ∀ r ∈ t, r.1 ≠ i := by
        intro r hr hri
        simp only [List.map_cons, List.nodup_cons] at hnd
        exact hnd.1 (List.mem_map.mpr ⟨r, hr, hri.trans hq.symm⟩)
      simp only [List.map_cons, if_pos hq, map_update_of_no_key hnone,
        List.countP_cons]
      by_cases hz1 : (f p.2).refs = 0 <;> by_cases hz2 : p.2.refs = 0 <;>
        simp [hz1, hz2] <;> omega
    · have hf' : t.find? (fun r => r.1 = i) = some p := by
        rw [List.find?_cons_of_neg _ (by simpa using hq)] at hf
        exact hf
      simp only [List.map_cons, List.nodup_cons] at hnd
      have hih := ih hnd.2 hf'
      simp only [List.map_cons, if_neg hq, List.countP_cons]
      by_cases hzq : q.2.refs = 0 <;>
        simp [hzq, List.countP_map] at hih ⊢ <;> omega

theorem mem_of_find? {l : List (Nat × HStr)} {i : Nat} {p : Nat × HStr}
    (h : l.find? (fun q => q.1 = i) = some p) : p ∈ l :=
  List.mem_of_find?_eq_some h

/-- C10: the lazy-sweep bookkeeping.  Under the heap invariant
(strings_need_gc equals the number of zero-reference strings on the
list): a non-empty allocation links a fresh zero-reference string and
increments the counter; retain preserves the invariant and a retain away
from zero references decrements the counter; release (of a string with a
positive count, as the C assert demands) preserves the invariant,
incrementing the counter exactly on the transition to zero references;
and the sweep runs exactly when a zero-reference string exists, removes
exactly the zero-reference strings, and resets the counter. -/
theorem claim10_gc_counter :
    (∀ (h : Heap) (bytes : List Char) (len : Nat) (ln : Int),
      heapWF h → 0 < len →
      heapWF (string_alloc h bytes len ln).2 ∧
      (string_alloc h bytes len ln).2.needGc = h.needGc + 1 ∧
      (string_alloc h bytes len ln).1 = some h.nextId ∧
      (string_alloc h bytes len ln).2.strs.head? =
        some (h.nextId, ⟨0, len, ln, bytes⟩)) ∧
    (∀ (h : Heap) (r : StrRef),
      heapWF h →
      heapWF (string_retain h r) ∧
      (∀ (i : Nat) (p : Nat × HStr), r = some i →
        h.strs.find? (fun q => q.1 = i) = some p → p.2.refs = 0 →
        (string_retain h r).needGc + 1 = h.needGc)) ∧
    (∀ (h : Heap) (i : Nat) (p : Nat × HStr),
      heapWF h → h.strs.find? (fun q => q.1 = i) = some p → 1 ≤ p.2.refs →
      heapWF (string_release h (some i)) ∧
      (p.2.refs = 1 →
        (string_release h (some i)).needGc = h.needGc + 1) ∧
      (1 < p.2.refs → (string_release h (some i)).needGc = h.needGc)) ∧
    (∀ h : Heap, heapWF h →
      ((∃ p ∈ h.strs, p.2.refs = 0) →
        (string_gc h).strs = h.strs.filter (fun p => p.2.refs ≠ 0) ∧
        (string_gc h).needGc = 0) ∧
      ((¬ ∃ p ∈ h.strs, p.2.refs = 0) → string_gc h = h) ∧
      heapWF (string_gc h)) := by
  refine ⟨fun h bytes len ln hwf hlen => ?_, fun h r hwf => ?_,
    fun h i p hwf hf hrefs => ?_, fun h hwf => ?_⟩
  · obtain ⟨hnd, hfresh, hcnt⟩ := hwf
    have hne : ¬ (len = 0) := by omega
    have hA : string_alloc h bytes len ln =
        (some h.nextId,
          { strs := (h.nextId, ⟨0, len, ln, bytes⟩) :: h.strs
            nextId := h.nextId + 1
            needGc := h.needGc + 1
            staticValid := if ln ≠ 0 then true else h.staticValid }) := by
      simp [string_alloc, hne]
    rw [hA]
    refine ⟨⟨?_, ?_, ?_⟩, rfl, rfl, rfl⟩
    · simp only [List.map_cons, List.nodup_cons]
      refine ⟨fun hmem => ?_, hnd⟩
      obtain ⟨q, hq, hq1⟩ := List.mem_map.mp hmem
      exact absurd hq1 (Nat.ne_of_lt (hfresh q hq))
    · intro q hq
      rcases List.mem_cons.mp hq with rfl | hq'
      · simp
      · exact Nat.lt_succ_of_lt (hfresh q hq')
    · simp [List.countP_cons, hcnt]
  · obtain ⟨hnd, hfresh, hcnt⟩ := hwf
    match r with
    | none => exact ⟨⟨hnd, hfresh, hcnt⟩, fun i p hip => by cases hip⟩
    | some i =>
      match hfind : h.strs.find? (fun q => q.1 = i) with
      | none =>
        have hid : string_retain h (some i) = h := by
          simp [string_retain, hfind]
        refine ⟨by rw [hid]; exact ⟨hnd, hfresh, hcnt⟩, ?_⟩
        intro j p hj hf2 h0
        injection hj with hj'
        subst hj'
        rw [hfind] at hf2
        cases hf2
      | some p =>
        have hmem := mem_of_find? hfind
        have hR : string_retain h (some i) =
            { h with
              strs := h.strs.map (fun q =>
                if q.1 = i then (q.1, { q.2 with refs := q.2.refs + 1 })
                else q)
              needGc := if p.2.refs = 0 then h.needGc - 1 else h.needGc } := by
          simp [string_retain, hfind]
        have hcp := countP_zero_update h.strs i
          (fun st => { st with refs := st.refs + 1 }) p hnd hfind
        refine ⟨⟨?_, ?_, ?_⟩, ?_⟩
        · rw [hR]
          rw [show (({ h with
              strs := h.strs.map (fun q =>
                if q.1 = i then (q.1, { q.2 with refs := q.2.refs + 1 })
                else q)
              needGc := if p.2.refs = 0 then h.needGc - 1
                        else h.needGc } : Heap).strs.map Prod.fst)
            = h.strs.map Prod.fst from
            keys_map_update h.strs i (fun st => { st with refs := st.refs + 1 })]
          exact hnd
        · rw [hR]
          intro q hq
          obtain ⟨q', hq', hq'eq⟩ := List.mem_map.mp hq
          rw [← hq'eq]
          by_cases hc : q'.1 = i
          · simpa [hc] using hfresh q' hq'
          · simpa [hc] using hfresh q' hq'
        · rw [hR]
          by_cases hz : p.2.refs = 0
          · have hc1 : 0 < h.strs.countP (fun q => q.2.refs = 0) :=
              List.countP_pos_iff.mpr ⟨p, hmem, by simp [hz]⟩
            simp only [if_pos hz]
            rw [List.countP_map]
            simp [hz, List.countP_map] at hcp
            omega
          · simp only [if_neg hz]
            rw [List.countP_map]
            simp [hz, List.countP_map] at hcp
            omega
        · intro j p2 hj hf2 h0
          injection hj with hj'
          subst hj'
          rw [hfind] at hf2
          injection hf2 with hp2
          subst hp2
          have hc1 : 0 < h.strs.countP (fun q => q.2.refs = 0) :=
            List.countP_pos_iff.mpr ⟨p, hmem, by simp [h0]⟩
          rw [hR]
          simp only [if_pos h0]
          omega
  · obtain ⟨hnd, hfresh, hcnt⟩ := hwf
    have hmem := mem_of_find? hf
    have hz : ¬ (p.2.refs = 0) := by omega
    have hR : string_release h (some i) =
        { h with
          strs := h.strs.map (fun q =>
            if q.1 = i then (q.1, { q.2 with refs := q.2.refs - 1 })
            else q)
          needGc := if p.2.refs - 1 = 0 then h.needGc + 1
                    else h.needGc } := by
      simp [string_release, hf]
    have hcp := countP_zero_update h.strs i
      (fun st => { st with refs := st.refs - 1 }) p hnd hf
    refine ⟨⟨?_, ?_, ?_⟩, fun h1 => ?_, fun h1 => ?_⟩
    · rw [hR]
      rw [show (({ h with
          strs := h.strs.map (fun q =>
            if q.1 = i then (q.1, { q.2 with refs := q.2.refs - 1 })
            else q)
          needGc := if p.2.refs - 1 = 0 then h.needGc + 1
                    else h.needGc } : Heap).strs.map Prod.fst)
        = h.strs.map Prod.fst from
        keys_map_update h.strs i (fun st => { st with refs := st.refs - 1 })]
      exact hnd
    · rw [hR]
      intro q hq
      obtain ⟨q', hq', hq'eq⟩ := List.mem_map.mp hq
      rw [← hq'eq]
      by_cases hc : q'.1 = i
      · simpa [hc] using hfresh q' hq'
      · simpa [hc] using hfresh q' hq'
    · rw [hR]
      by_cases h1 : p.2.refs - 1 = 0
      · simp only [if_pos h1]
        rw [List.countP_map]
        simp [hz, h1, List.countP_map] at hcp
        omega
      · simp only [if_neg h1]
        rw [List.countP_map]
        simp [hz, h1, List.countP_map] at hcp
        omega
    · rw [hR]
      have h2 : p.2.refs - 1 = 0 := by omega
      simp only [if_pos h2]
    · rw [hR]
      have h2 : ¬ (p.2.refs - 1 = 0) := by omega
      simp only [if_neg h2]
  · obtain ⟨hnd, hfresh, hcnt⟩ := hwf
    by_cases h0 : h.needGc = 0
    · have hno : ∀ p ∈ h.strs, ¬ (p.2.refs = 0) := by
        have := List.countP_eq_zero.mp (hcnt ▸ h0)
        intro p hp
        simpa using this p hp
      refine ⟨fun hex => ?_, fun _ => ?_, ?_⟩
      · obtain ⟨p, hp, hp0⟩ := hex
        exact absurd hp0 (hno p hp)
      · simp [string_gc, h0]
      · have hid : string_gc h = h := by simp [string_gc, h0]
        rw [hid]
        exact ⟨hnd, hfresh, hcnt⟩
    · have hex : ∃ p ∈ h.strs, p.2.refs = 0 := by
        rcases List.countP_pos_iff.mp
          (by omega : 0 < h.strs.countP (fun q => q.2.refs = 0)) with
          ⟨p, hp, hp0⟩
        exact ⟨p, hp, by simpa using hp0⟩
      have hG : string_gc h =
          { h with strs := h.strs.filter (fun p => p.2.refs ≠ 0)
                   needGc := 0 } := by
        simp [string_gc, h0]
      refine ⟨fun _ => ⟨?_, ?_⟩, fun hn => absurd hex hn, ⟨?_, ?_, ?_⟩⟩
      · rw [hG]
      · rw [hG]
      · rw [hG]
        exact hnd.sublist ((List.filter_sublist _).map Prod.fst)
      · rw [hG]
        intro q hq
        exact hfresh q (List.mem_of_mem_filter hq)
      · rw [hG]
        show (0 : Nat) = _
        rw [List.countP_filter]
        symm
        rw [List.countP_eq_zero]
        intro a _
        simp

/-- C10 witness: the accounting on the example heap (one retained
string, one zero-reference string, counter 1). -/
theorem claim10_gc_counter_witness :
    heapWF egHeap ∧
    heapWF (string_alloc egHeap ['x'] 1 7).2 ∧
    (string_alloc egHeap ['x'] 1 7).2.needGc = egHeap.needGc + 1 ∧
    heapWF (string_retain egHeap (some 1)) ∧
    (string_retain egHeap (some 1)).needGc + 1 = egHeap.needGc ∧
    heapWF (string_release egHeap (some 0)) ∧
    (string_release egHeap (some 0)).needGc = egHeap.needGc + 1 ∧
    (string_gc egHeap).strs =
      egHeap.strs.filter (fun p => p.2.refs ≠ 0) ∧
    (string_gc egHeap).needGc = 0 ∧
    heapWF (string_gc egHeap) := by
  have hwf : heapWF egHeap := ⟨by decide, by decide, by decide⟩
  obtain ⟨ha1, ha2, _, _⟩ :=
    claim10_gc_counter.1 egHeap ['x'] 1 7 hwf (by decide)
  obtain ⟨hr1, hr2⟩ := claim10_gc_counter.2.1 egHeap (some 1) hwf
  obtain ⟨hl1, hl2, _⟩ :=
    claim10_gc_counter.2.2.1 egHeap 0 (0, ⟨1, 2, 0, ['a', 'b']⟩) hwf rfl
      (by decide)
  obtain ⟨hg1, _, hg3⟩ := claim10_gc_counter.2.2.2 egHeap hwf
  obtain ⟨hgs, hgn⟩ := hg1 ⟨(1, ⟨0, 1, 0, ['c']⟩), by decide, rfl⟩
  exact ⟨hwf, ha1, ha2, hr1,
    hr2 1 (1, ⟨0, 1, 0, ['c']⟩) rfl rfl rfl, hl1, hl2 rfl, hgs, hgn, hg3⟩

/-! ## C6: RND -/

theorem rnd_bound (u r : Nat) (hu : 1 ≤ u) (hr : r ≤ RAND_MAX) :
    1 ≤ r / (RAND_MAX / u + 1) + 1 ∧ r / (RAND_MAX / u + 1) + 1 ≤ u := by
  refine ⟨Nat.le_add_left 1 _, ?_⟩
  have hq : 0 < RAND_MAX / u + 1 := Nat.succ_pos _
  have h2 := Nat.div_add_mod RAND_MAX u
  have h3 : RAND_MAX % u < u := Nat.mod_lt _ (by omega)
  have h1 : r < u * (RAND_MAX / u + 1) := by
    have h4 : u * (RAND_MAX / u + 1) = u * (RAND_MAX / u) + u := by ring
    omega
  exact (Nat.div_lt_iff_lt_mul hq).mpr h1

/-- C6, counterexample: when the host RNG returns RAND_MAX, RND with
argument 0 pushes exactly 1 — the result lies in the closed interval
[0,1], not in the half-open [0,1) the claim states. -/
theorem claim6_counterexample :
    OPC_RND_float [0] RAND_MAX = .ok [1] ∧ ¬ ((1 : ℚ) < 1) := by
  constructor
  · norm_num [OPC_RND_float, RAND_MAX]
  · norm_num

/-- C6, amended: RND pops its argument n and: for n > 1 it pushes an
integer in [1 .. floor n]; for n == 0 it pushes the value
rand/RAND_MAX, which lies in the closed interval [0, 1] (the endpoint 1
is hit when the RNG returns RAND_MAX); for n == 1 it raises the
NUMBER OUT OF RANGE BASIC error.  The same integer arithmetic governs
the integer-only build's n > 1 arm. -/
theorem claim6_amended (n : ℚ) (r : Nat) (rest : List ℚ) (s : VMState)
    (m : Int) (restv : List Value) :
    (n > 1 → r ≤ RAND_MAX →
      OPC_RND_float (n :: rest) r =
        .ok (((r / (RAND_MAX / n.floor.toNat + 1) + 1 : Nat) : ℚ) :: rest) ∧
      1 ≤ r / (RAND_MAX / n.floor.toNat + 1) + 1 ∧
      ((r / (RAND_MAX / n.floor.toNat + 1) + 1 : Nat) : ℚ) ≤ n) ∧
    (n = 0 → r ≤ RAND_MAX →
      OPC_RND_float (n :: rest) r = .ok (((r : ℚ) / RAND_MAX) :: rest) ∧
      0 ≤ (r : ℚ) / RAND_MAX ∧ (r : ℚ) / RAND_MAX ≤ 1) ∧
    (n = 1 →
      OPC_RND_float (n :: rest) r = .error (.basic "NUMBER OUT OF RANGE")) ∧
    (s.aestk = .num m :: restv → m > 1 → r ≤ RAND_MAX →
      restv.length < SIZE_AESTK →
      ∃ k : Nat,
        OPC_RND s r = .ok { s with aestk := .num (k : Int) :: restv } ∧
        k = r / (RAND_MAX / m.toNat + 1) + 1 ∧
        1 ≤ k ∧ (k : Int) ≤ m) := by
  refine ⟨fun hn hr => ?_, fun hn hr => ?_, fun hn => ?_,
    fun hstk hm hr hlen => ?_⟩
  · have hfl : (1 : Int) ≤ n.floor := by
      rw [Rat.le_floor]
      push_cast
      linarith
    have hu : 1 ≤ n.floor.toNat := by omega
    obtain ⟨hb1, hb2⟩ := rnd_bound n.floor.toNat r hu hr
    refine ⟨by simp [OPC_RND_float, hn], hb1, ?_⟩
    have hcast : ((r / (RAND_MAX / n.floor.toNat + 1) + 1 : Nat) : ℚ) ≤
        (n.floor.toNat : ℚ) := by
      exact_mod_cast hb2
    have hfloor : ((n.floor.toNat : Int) : ℚ) ≤ n := by
      rw [Int.toNat_of_nonneg (by omega)]
      exact Rat.le_floor.mp le_rfl
    calc ((r / (RAND_MAX / n.floor.toNat + 1) + 1 : Nat) : ℚ)
        ≤ (n.floor.toNat : ℚ) := hcast
      _ = ((n.floor.toNat : Int) : ℚ) := by push_cast; ring
      _ ≤ n := hfloor
  · subst hn
    refine ⟨by norm_num [OPC_RND_float], by positivity, ?_⟩
    rw [div_le_one (by norm_num [RAND_MAX])]
    exact_mod_cast hr
  · subst hn
    norm_num [OPC_RND_float]
  · have hu : 1 ≤ m.toNat := by omega
    obtain ⟨hb1, hb2⟩ := rnd_bound m.toNat r hu hr
    refine ⟨r / (RAND_MAX / m.toNat + 1) + 1, ?_, rfl, hb1, by omega⟩
    simp [OPC_RND, aestk_pop_number, aestk_pop_value, hstk, isNum,
      value_release, Bind.bind, Except.bind, hm, aestk_push_number,
      aestk_push_value, value_valid_p, value_retain,
      show ¬ (restv.length = SIZE_AESTK) by omega]

/-- C6 witness: the amended theorem at n = 5/2 with the RNG returning
2147, at n = 0 with the RNG returning RAND_MAX, at n = 1, and at the
integer-build RND with argument 4. -/
theorem claim6_amended_witness :
    (OPC_RND_float [(5 : ℚ) / 2] 2147 =
      .ok [((2147 / (RAND_MAX / 2 + 1) + 1 : Nat) : ℚ)] ∧
     1 ≤ 2147 / (RAND_MAX / 2 + 1) + 1 ∧
     ((2147 / (RAND_MAX / 2 + 1) + 1 : Nat) : ℚ) ≤ (5 : ℚ) / 2) ∧
    (OPC_RND_float [0] RAND_MAX = .ok [(RAND_MAX : ℚ) / RAND_MAX] ∧
     0 ≤ (RAND_MAX : ℚ) / RAND_MAX ∧ (RAND_MAX : ℚ) / RAND_MAX ≤ 1) ∧
    OPC_RND_float [1] 5 = .error (.basic "NUMBER OUT OF RANGE") ∧
    (∃ k : Nat,
      OPC_RND { egState with aestk := [.num 4] } 2147 =
        .ok { egState with aestk := [.num (k : Int)] } ∧
      k = 2147 / (RAND_MAX / 4 + 1) + 1 ∧ 1 ≤ k ∧ (k : Int) ≤ 4) := by
  have hfl2 : ((5 : ℚ) / 2).floor = 2 := by norm_num [Rat.floor]
  have hfl : ((5 : ℚ) / 2).floor.toNat = 2 := by rw [hfl2]; rfl
  refine ⟨?_, ?_, ?_, ?_⟩
  · have := (claim6_amended ((5 : ℚ) / 2) 2147 [] egState 4 []).1
      (by norm_num) (by norm_num [RAND_MAX])
    rwa [hfl] at this
  · exact (claim6_amended 0 RAND_MAX [] egState 4 []).2.1 rfl (by norm_num)
  · exact (claim6_amended 1 5 [] egState 4 []).2.2.1 rfl
  · simpa using
      (claim6_amended 0 2147 [] { egState with aestk := [.num 4] } 4 []).2.2.2
        rfl (by norm_num) (by norm_num [RAND_MAX]) (by decide)

/-! ## C7: the program-store bookends -/

theorem scan_up_found (s : VMState) (fuel : Nat) : ∀ i : Int,
    scan_up s i fuel ≠ 0 →
    i ≤ scan_up s i fuel ∧ scan_up s i fuel ≤ MAX_LINENO ∧
      (s.progstore (scan_up s i fuel - 1).toNat).isSome := by
  induction fuel with
  | zero => intro i h; simp [scan_up] at h
  | succ f ih =>
    intro i h
    rw [scan_up] at h ⊢
    by_cases hgt : i > MAX_LINENO
    · simp [hgt] at h
    · by_cases hsome : (s.progstore (i - 1).toNat).isSome
      · simp only [if_neg hgt, if_pos hsome] at h ⊢
        exact ⟨le_refl i, by omega, hsome⟩
      · simp only [if_neg hgt, if_neg hsome] at h ⊢
        obtain ⟨ha, hb, hc⟩ := ih (i + 1) h
        exact ⟨by omega, hb, hc⟩

theorem scan_up_min (s : VMState) (fuel : Nat) : ∀ i : Int, 1 ≤ i →
    ∀ j : Int, i ≤ j → j < scan_up s i fuel →
    ¬ (s.progstore (j - 1).toNat).isSome := by
  induction fuel with
  | zero => intro i hi j hij hj; simp [scan_up] at hj; omega
  | succ f ih =>
    intro i hi j hij hj
    rw [scan_up] at hj
    by_cases hgt : i > MAX_LINENO
    · simp [hgt] at hj; omega
    · by_cases hsome : (s.progstore (i - 1).toNat).isSome
      · simp only [if_neg hgt, if_pos hsome] at hj
        omega
      · simp only [if_neg hgt, if_neg hsome] at hj
        by_cases hji : j = i
        · subst hji; exact hsome
        · exact ih (i + 1) (by omega) j (by omega) hj

theorem scan_up_none (s : VMState) (fuel : Nat) : ∀ i : Int, 1 ≤ i →
    MAX_LINENO + 1 ≤ i + fuel → scan_up s i fuel = 0 →
    ∀ j : Int, i ≤ j → j ≤ MAX_LINENO →
      ¬ (s.progstore (j - 1).toNat).isSome := by
  induction fuel with
  | zero =>
    intro i hi hfuel h j hij hjm
    simp only [MAX_LINENO] at hfuel hjm
    omega
  | succ f ih =>
    intro i hi hfuel h j hij hjm
    rw [scan_up] at h
    by_cases hgt : i > MAX_LINENO
    · omega
    · by_cases hsome : (s.progstore (i - 1).toNat).isSome
      · simp only [if_neg hgt, if_pos hsome] at h
        omega
      · simp only [if_neg hgt, if_neg hsome] at h
        by_cases hji : j = i
        · subst hji; exact hsome
        · exact ih (i + 1) (by omega) (by omega) h j (by omega) hjm

theorem scan_down_found (s : VMState) (fuel : Nat) : ∀ i : Int,
    scan_down s i fuel ≠ 0 →
    1 ≤ scan_down s i fuel ∧ scan_down s i fuel ≤ i ∧
      (s.progstore (scan_down s i fuel - 1).toNat).isSome := by
  induction fuel with
  | zero => intro i h; simp [scan_down] at h
  | succ f ih =>
    intro i h
    rw [scan_down] at h ⊢
    by_cases hlt : i < 1
    · simp [hlt] at h
    · by_cases hsome : (s.progstore (i - 1).toNat).isSome
      · simp only [if_neg hlt, if_pos hsome] at h ⊢
        exact ⟨by omega, le_refl i, hsome⟩
      · simp only [if_neg hlt, if_neg hsome] at h ⊢
        obtain ⟨ha, hb, hc⟩ := ih (i - 1) h
        exact ⟨ha, by omega, hc⟩

theorem scan_down_max (s : VMState) (fuel : Nat) : ∀ i : Int,
    (i : Int) ≤ (fuel : Int) → ∀ j : Int,
    j ≤ i → scan_down s i fuel < j →
    ¬ (s.progstore (j - 1).toNat).isSome := by
  induction fuel with
  | zero =>
    intro i hfuel j hij hj
    simp [scan_down] at hj
    push_cast at hfuel
    omega
  | succ f ih =>
    intro i hfuel j hij hj
    rw [scan_down] at hj
    push_cast at hfuel
    by_cases hlt : i < 1
    · simp [hlt] at hj; omega
    · by_cases hsome : (s.progstore (i - 1).toNat).isSome
      · simp only [if_neg hlt, if_pos hsome] at hj
        omega
      · simp only [if_neg hlt, if_neg hsome] at hj
        by_cases hji : j = i
        · subst hji; exact hsome
        · exact ih (i - 1) (by push_cast; omega) j (by omega) hj

theorem scan_down_none (s : VMState) (fuel : Nat) : ∀ i : Int,
    (i : Int) ≤ (fuel : Int) → scan_down s i fuel = 0 →
    ∀ j : Int, 1 ≤ j → j ≤ i →
      ¬ (s.progstore (j - 1).toNat).isSome := by
  induction fuel with
  | zero => intro i hfuel h j hj hji; push_cast at hfuel; omega
  | succ f ih =>
    intro i hfuel h j hj hji
    rw [scan_down] at h
    by_cases hlt : i < 1
    · omega
    · by_cases hsome : (s.progstore (i - 1).toNat).isSome
      · simp only [if_neg hlt, if_pos hsome] at h
        omega
      · simp only [if_neg hlt, if_neg hsome] at h
        by_cases hji2 : j = i
        · subst hji2; exact hsome
        · exact ih (i - 1) (by push_cast; omega) h j hj (by omega)

theorem update_bookends_insert (t : VMState) (lineno : Int)
    (h1 : 1 ≤ lineno) (h2 : lineno ≤ MAX_LINENO)
    (hsome : (t.progstore (lineno - 1).toNat).isSome)
    (hin : ∀ n : Nat, n < 65535 → (t.progstore n).isSome →
      (n : Int) + 1 = lineno ∨
      (t.first_line ≤ (n : Int) + 1 ∧ (n : Int) + 1 ≤ t.last_line))
    (hbk : (t.first_line = 0 ∧ t.last_line = 0) ∨
      (1 ≤ t.first_line ∧ t.first_line ≤ MAX_LINENO ∧
       (t.progstore (t.first_line - 1).toNat).isSome ∧
       1 ≤ t.last_line ∧ t.last_line ≤ MAX_LINENO ∧
       (t.progstore (t.last_line - 1).toNat).isSome)) :
    progInv (update_bookends t lineno true) := by
  have hub : update_bookends t lineno true =
      { t with
        first_line := if t.first_line < 1 ∨ t.first_line > lineno then lineno
                      else t.first_line
        last_line := if t.last_line < 1 ∨ t.last_line < lineno then lineno
                     else t.last_line } := by
    unfold update_bookends
    rw [if_pos rfl]
  rw [hub]
  constructor
  · intro n hn hsome2
    dsimp only at hsome2 ⊢
    rcases hin n hn hsome2 with heq | ⟨hb1, hb2⟩
    · constructor <;> split <;> omega
    · rcases hbk with ⟨hf0, hl0⟩ | ⟨hra, _, _, hrd, _, _⟩
      · omega
      · constructor <;> split <;> omega
  · right
    dsimp only
    rcases hbk with ⟨hf0, hl0⟩ | ⟨hra, hrb, hrc, hrd, hre, hrf⟩
    · refine ⟨?_, ?_, ?_, ?_, ?_, ?_⟩
      · split <;> omega
      · split <;> omega
      · split
        · simpa using hsome
        · omega
      · split <;> omega
      · split <;> omega
      · split
        · simpa using hsome
        · omega
    · refine ⟨?_, ?_, ?_, ?_, ?_, ?_⟩
      · split <;> omega
      · split <;> omega
      · split
        · simpa using hsome
        · exact hrc
      · split <;> omega
      · split <;> omega
      · split
        · simpa using hsome
        · exact hrf

theorem update_bookends_delete (t : VMState) (lineno : Int)
    (h1 : 1 ≤ lineno) (h2 : lineno ≤ MAX_LINENO)
    (hnone : ¬ (t.progstore (lineno - 1).toNat).isSome)
    (hin : ∀ n : Nat, n < 65535 → (t.progstore n).isSome →
      t.first_line ≤ (n : Int) + 1 ∧ (n : Int) + 1 ≤ t.last_line)
    (hbk : (t.first_line = 0 ∧ t.last_line = 0) ∨
      (1 ≤ t.first_line ∧ t.first_line ≤ MAX_LINENO ∧
       1 ≤ t.last_line ∧ t.last_line ≤ MAX_LINENO ∧
       t.first_line ≤ t.last_line ∧
       (t.first_line ≠ lineno →
         (t.progstore (t.first_line - 1).toNat).isSome) ∧
       (t.last_line ≠ lineno →
         (t.progstore (t.last_line - 1).toNat).isSome))) :
    progInv (update_bookends t lineno false) := by
  have hmax : MAX_LINENO = 65535 := rfl
  by_cases hf : lineno = t.first_line
  · by_cases hf0 : scan_up t lineno 70000 = 0
    · have hub : update_bookends t lineno false =
          { t with first_line := 0, last_line := 0 } := by
        unfold update_bookends
        rw [if_neg (by simp : ¬ (false = true)), if_pos hf, if_pos hf0]
      rw [hub]
      constructor
      · intro n hn hsome2
        dsimp only at hsome2 ⊢
        exfalso
        have hb := hin n hn hsome2
        have hnn := scan_up_none t 70000 lineno h1 (by rw [hmax]; omega)
          hf0 ((n : Int) + 1) (by omega) (by omega)
        have hidx : (((n : Int) + 1) - 1).toNat = n := by omega
        rw [hidx] at hnn
        exact hnn hsome2
      · left
        exact ⟨rfl, rfl⟩
    · obtain ⟨hfa, hfb, hfc⟩ := scan_up_found t 70000 lineno hf0
      have hfne : scan_up t lineno 70000 ≠ lineno := by
        intro he
        rw [he] at hfc
        exact hnone hfc
      have hfidx : (((scan_up t lineno 70000) - 1).toNat : Int) + 1 =
          scan_up t lineno 70000 := by omega
      have hfb2 := hin ((scan_up t lineno 70000) - 1).toNat
        (by rw [hmax] at hfb; omega) hfc
      rw [hfidx] at hfb2
      have hll : ¬ (lineno = t.last_line) := by
        intro he
        rw [← hf] at hfb2
        omega
      have hub : update_bookends t lineno false =
          { t with first_line := scan_up t lineno 70000 } := by
        unfold update_bookends
        rw [if_neg (by simp : ¬ (false = true)), if_pos hf, if_neg hf0]
        dsimp only
        rw [if_neg hll]
      rw [hub]
      constructor
      · intro n hn hsome2
        dsimp only at hsome2 ⊢
        have hb := hin n hn hsome2
        constructor
        · by_contra hcon
          have hmin := scan_up_min t 70000 lineno h1 ((n : Int) + 1)
            (by omega) (by omega)
          have hidx : (((n : Int) + 1) - 1).toNat = n := by omega
          rw [hidx] at hmin
          exact hmin hsome2
        · exact hb.2
      · right
        dsimp only
        rcases hbk with ⟨hbf, hbl⟩ | ⟨_, _, hl1, hl2, _, _, hlent⟩
        · omega
        · exact ⟨by omega, hfb, hfc, hl1, hl2,
            hlent (fun he => hll he.symm)⟩
  · by_cases hl : lineno = t.last_line
    · rcases hbk with ⟨hbf, hbl⟩ | ⟨hf1, hf2, hl1, hl2, hfl, hfent, _⟩
      · omega
      · have hfent2 := hfent (fun he => hf he.symm)
        have hg0 : scan_down t lineno 70000 ≠ 0 := by
          intro he
          have hnn := scan_down_none t 70000 lineno
            (by push_cast; omega) he t.first_line hf1 (by omega)
          exact hnn hfent2
        obtain ⟨hga, hgb, hgc⟩ := scan_down_found t 70000 lineno hg0
        have hub : update_bookends t lineno false =
            { t with last_line := scan_down t lineno 70000 } := by
          unfold update_bookends
          rw [if_neg (by simp : ¬ (false = true)), if_neg hf, if_pos hl]
        rw [hub]
        constructor
        · intro n hn hsome2
          dsimp only at hsome2 ⊢
          have hb := hin n hn hsome2
          refine ⟨hb.1, ?_⟩
          by_contra hcon
          have hmaxl := scan_down_max t 70000 lineno (by push_cast; omega)
            ((n : Int) + 1) (by omega) (by omega)
          have hidx : (((n : Int) + 1) - 1).toNat = n := by omega
          rw [hidx] at hmaxl
          exact hmaxl hsome2
        · right
          dsimp only
          exact ⟨hf1, hf2, hfent2, hga, by omega, hgc⟩
    · have hub : update_bookends t lineno false = t := by
        unfold update_bookends
        rw [if_neg (by simp : ¬ (false = true)), if_neg hf, if_neg hl]
      rw [hub]
      constructor
      · exact hin
      · rcases hbk with ⟨hbf, hbl⟩ | ⟨hf1, hf2, hl1, hl2, hfl, hfent, hlent⟩
        · exact Or.inl ⟨hbf, hbl⟩
        · exact Or.inr ⟨hf1, hf2, hfent (fun he => hf he.symm), hl1, hl2,
            hlent (fun he => hl he.symm)⟩

/-- C7: after every insertion or deletion of a program line, every stored
line lies between `first_line` and `last_line`, and the bookends
reference non-null store entries or are both zero on an empty store. -/
theorem claim7_bookends (s : VMState) (lineno : Int) (text : List Char)
    (hinv : progInv s) (h1 : 1 ≤ lineno) (h2 : lineno ≤ MAX_LINENO) :
    progInv (insert_line s lineno text) := by
  obtain ⟨hin, hbk⟩ := hinv
  have hmax : MAX_LINENO = 65535 := rfl
  unfold insert_line
  by_cases htext : text.length = 0
  · rw [if_pos htext]
    simp only [Option.isSome_none]
    apply update_bookends_delete _ lineno h1 h2
    · dsimp only
      simp
    · intro n hn hsome2
      dsimp only at hsome2 ⊢
      by_cases hni : n = (lineno - 1).toNat
      · simp [hni] at hsome2
      · rw [if_neg hni] at hsome2
        exact hin n hn hsome2
    · dsimp only
      rcases hbk with ⟨hbf, hbl⟩ | ⟨hf1, hf2, hfent, hl1, hl2, hlent⟩
      · exact Or.inl ⟨hbf, hbl⟩
      · right
        have hfirst_le_last : s.first_line ≤ s.last_line := by
          have hb := hin (s.first_line - 1).toNat (by omega) hfent
          have hc : (((s.first_line - 1).toNat : Int)) + 1 = s.first_line :=
            by omega
          rw [hc] at hb
          exact hb.2
        refine ⟨hf1, hf2, hl1, hl2, hfirst_le_last, fun hne => ?_,
          fun hne => ?_⟩
        · rw [if_neg (by omega : ¬ ((s.first_line - 1).toNat =
            (lineno - 1).toNat))]
          exact hfent
        · rw [if_neg (by omega : ¬ ((s.last_line - 1).toNat =
            (lineno - 1).toNat))]
          exact hlent
  · rw [if_neg htext]
    simp only [Option.isSome_some]
    apply update_bookends_insert _ lineno h1 h2
    · dsimp only
      simp
    · intro n hn hsome2
      dsimp only at hsome2 ⊢
      by_cases hni : n = (lineno - 1).toNat
      · left
        omega
      · right
        rw [if_neg hni] at hsome2
        exact hin n hn hsome2
    · dsimp only
      rcases hbk with ⟨hbf, hbl⟩ | ⟨hf1, hf2, hfent, hl1, hl2, hlent⟩
      · exact Or.inl ⟨hbf, hbl⟩
      · right
        refine ⟨hf1, hf2, ?_, hl1, hl2, ?_⟩
        · by_cases he : (s.first_line - 1).toNat = (lineno - 1).toNat
          · simp [he]
          · rw [if_neg he]
            exact hfent
        · by_cases he : (s.last_line - 1).toNat = (lineno - 1).toNat
          · simp [he]
          · rw [if_neg he]
            exact hlent

/-- C7 witness: insertion of line 42 into the empty store, and deletion
of line 10 from the four-line example program. -/
theorem claim7_bookends_witness :
    progInv egState ∧
    progInv (insert_line egState 42 ['P']) ∧
    progInv egDataState ∧
    progInv (insert_line egDataState 10 []) := by
  have h0 : progInv egState := by
    refine ⟨fun n hn hs => ?_, Or.inl ⟨rfl, rfl⟩⟩
    simp [egState] at hs
  have h1 : progInv egDataState := by
    refine ⟨fun n hn hs => ?_, Or.inr ?_⟩
    · by_cases h9 : n = 9 ∨ n = 19 ∨ n = 29 ∨ n = 39
      · constructor <;> (show (_ : Int) ≤ _) <;>
          rcases h9 with rfl | rfl | rfl | rfl <;> decide
      · exfalso
        have : egDataState.progstore n = none := by
          simp only [egDataState, egState]
          rw [if_neg h9]
        rw [this] at hs
        simp at hs
    · exact ⟨by decide, by decide, by decide, by decide, by decide, by decide⟩
  exact ⟨h0, claim7_bookends egState 42 ['P'] h0 (by decide) (by decide),
    h1, claim7_bookends egDataState 10 [] h1 (by decide) (by decide)⟩

/-! ## C2: the BASIC error path -/

theorem putchar_out (c : Cons) (ch : Char) (h : ch ≠ '\t') :
    (putchar c ch).out = c.out ++ [ch] := by
  rw [putchar_of_ne_tab c ch h]

theorem print_crlf_out (c : Cons) : (print_crlf c).out = c.out ++ ['\n'] := by
  rw [print_crlf, putchar_of_ne_tab c '\n' (by decide)]

theorem print_integer_out (c : Cons) (n : Int) :
    (print_integer c n).out = c.out ++ intToChars n :=
  print_cstring_out _ c (intToChars_ne_tab n)

theorem find_line_congr (a b : VMState) (h : a.progstore = b.progstore)
    (n : Int) : find_line a n = find_line b n := by
  unfold find_line
  rw [h]

/-- C2: basic_error (together with the setjmp handler in tbvm_exec)
closes any open program file, prints `?<msg> ERROR` — followed, when the
VM is then not in direct mode, by ` AT LINE n` with n the BASIC line at
the time of the error — exits DATA mode, and resumes in direct mode
(stacks emptied, line 0, collector entry) with the program file closed.
The hypothesis rules out the VM-abort path of the DATA-mode cursor
restore (the saved statement cursor must still resolve). -/
theorem claim2_basic_error (s : VMState) (msg : List Char)
    (hmsg : ∀ ch ∈ msg, ch ≠ '\t')
    (hdata : s.saved_lineno ≠ 0 →
      1 ≤ s.saved_lineno ∧ s.saved_lineno ≤ MAX_LINENO ∧
      0 ≤ s.saved_lbuf_ptr ∧ s.saved_lbuf_ptr < SIZE_LBUF ∧
      (find_line s s.saved_lineno).isSome) :
    ∃ s', basic_error_fn s msg = .ok s' ∧
      s'.cons.out = s.cons.out ++ '?' :: msg ++ (" ERROR").toList ++
        (if s.prog_file_open ∨ s.direct then []
         else (" AT LINE ").toList ++ intToChars s.lineno) ++ ['\n'] ∧
      s'.prog_file_open = false ∧
      s'.saved_lineno = 0 ∧
      s'.direct = true ∧
      s'.lineno = 0 ∧
      s'.pc = s.collector_pc ∧
      s'.cstk = [] ∧ s'.sbrstk = [] ∧ s'.aestk = [] ∧
      s'.lbuf = none ∧ s'.lbuf_ptr = 0 := by
  have hq : ∀ c : Cons, (putchar c '?').out = c.out ++ ['?'] :=
    fun c => putchar_out c '?' (by decide)
  have hmsgout : ∀ c : Cons, (print_cstring c msg).out = c.out ++ msg :=
    fun c => print_cstring_out msg c hmsg
  have herr : ∀ c : Cons,
      (print_cstring c (" ERROR").toList).out = c.out ++ (" ERROR").toList :=
    fun c => print_cstring_out _ c (by decide)
  have hat : ∀ c : Cons,
      (print_cstring c (" AT LINE ").toList).out =
        c.out ++ (" AT LINE ").toList :=
    fun c => print_cstring_out _ c (by decide)
  by_cases hpf : s.prog_file_open <;> by_cases hsl : s.saved_lineno = 0
  · -- file open, no DATA mode
    unfold basic_error_fn
    rw [if_pos hpf]
    dsimp only [prog_file_fini, direct_mode, reset_stacks, aestk_reset,
      Bind.bind, Except.bind]
    rw [if_neg (by simp [hsl]), if_neg (by simp)]
    refine ⟨_, rfl, ?_, rfl, hsl, rfl, rfl, rfl, rfl, rfl, rfl, rfl, rfl⟩
    rw [print_crlf_out, herr, hmsgout, hq]
    simp [hpf]
  · -- file open, DATA mode active
    obtain ⟨hd1, hd2, hd3, hd4, hd5⟩ := hdata hsl
    obtain ⟨l, hl⟩ := Option.isSome_iff_exists.mp hd5
    unfold basic_error_fn
    rw [if_pos hpf]
    dsimp only [prog_file_fini, direct_mode, reset_stacks, aestk_reset,
      Bind.bind, Except.bind]
    rw [if_pos (by simpa using hsl), if_neg (by simp)]
    unfold exit_data_mode restore_line set_line_ext
    dsimp only
    rw [if_neg hsl, if_neg (by omega), if_neg (by omega)]
    unfold find_line at hl ⊢
    rw [if_neg (by omega)] at hl
    dsimp only
    rw [if_neg (by omega), hl]
    dsimp only [Bind.bind, Except.bind]
    refine ⟨_, rfl, ?_, rfl, rfl, rfl, rfl, rfl, rfl, rfl, rfl, rfl, rfl⟩
    rw [print_crlf_out, herr, hmsgout, hq]
    simp [hpf]
  · -- console, no DATA mode
    unfold basic_error_fn
    rw [if_neg hpf]
    dsimp only [Bind.bind, Except.bind]
    rw [if_neg (by simp [hsl])]
    dsimp only [direct_mode, reset_stacks, aestk_reset]
    by_cases hd : s.direct
    · rw [if_neg (by simp [hd])]
      refine ⟨_, rfl, ?_, by simpa using hpf, hsl, rfl, rfl, rfl, rfl, rfl,
        rfl, rfl, rfl⟩
      rw [print_crlf_out, herr, hmsgout, hq]
      simp [hpf, hd]
    · rw [if_pos (by simp [hd])]
      refine ⟨_, rfl, ?_, by simpa using hpf, hsl, rfl, rfl, rfl, rfl, rfl,
        rfl, rfl, rfl⟩
      rw [print_crlf_out, print_integer_out, hat, herr, hmsgout, hq]
      simp [hpf, hd]
  · -- console, DATA mode active
    obtain ⟨hd1, hd2, hd3, hd4, hd5⟩ := hdata hsl
    obtain ⟨l, hl⟩ := Option.isSome_iff_exists.mp hd5
    unfold basic_error_fn
    rw [if_neg hpf]
    dsimp only [Bind.bind, Except.bind]
    rw [if_pos (by simpa using hsl)]
    unfold exit_data_mode restore_line set_line_ext
    dsimp only
    rw [if_neg hsl, if_neg (by omega), if_neg (by omega)]
    unfold find_line at hl ⊢
    rw [if_neg (by omega)] at hl
    dsimp only
    rw [if_neg (by omega), hl]
    dsimp only [Bind.bind, Except.bind, direct_mode, reset_stacks,
      aestk_reset]
    by_cases hd : s.direct
    · rw [if_neg (by simp [hd])]
      refine ⟨_, rfl, ?_, by simpa using hpf, rfl, rfl, rfl, rfl, rfl, rfl,
        rfl, rfl, rfl⟩
      rw [print_crlf_out, herr, hmsgout, hq]
      simp [hpf, hd]
    · rw [if_pos (by simp [hd])]
      refine ⟨_, rfl, ?_, by simpa using hpf, rfl, rfl, rfl, rfl, rfl, rfl,
        rfl, rfl, rfl⟩
      rw [print_crlf_out, print_integer_out, hat, herr, hmsgout, hq]
      simp [hpf, hd]

/-- Witness for C2: a SYNTAX error raised while running line 20 of the
concrete DATA-mode state prints the report and lands in direct mode. -/
theorem claim2_basic_error_witness :
    ∃ s', basic_error_fn egDataState ("SYNTAX").toList = .ok s' ∧
      s'.cons.out = egDataState.cons.out ++
        '?' :: ("SYNTAX").toList ++ (" ERROR").toList ++
        (if egDataState.prog_file_open ∨ egDataState.direct then []
         else (" AT LINE ").toList ++ intToChars egDataState.lineno) ++
        ['\n'] ∧
      s'.prog_file_open = false ∧
      s'.saved_lineno = 0 ∧
      s'.direct = true ∧
      s'.lineno = 0 ∧
      s'.pc = egDataState.collector_pc ∧
      s'.cstk = [] ∧ s'.sbrstk = [] ∧ s'.aestk = [] ∧
      s'.lbuf = none ∧ s'.lbuf_ptr = 0 :=
  claim2_basic_error egDataState ("SYNTAX").toList (by decide) (by decide)

/-! ## C5: FOR runs the body before any termination test -/

theorem find_line_stk (s : VMState) (a : List Value) (hp : Heap)
    (sk : List Subr) (n : Int) :
    find_line { s with aestk := a, heap := hp, sbrstk := sk } n =
      find_line s n := rfl

theorem next_line_scan_stk (s : VMState) (a : List Value) (hp : Heap)
    (sk : List Subr) (i : Int) (fuel : Nat) :
    next_line_scan { s with aestk := a, heap := hp, sbrstk := sk } i fuel =
      next_line_scan s i fuel := by
  induction fuel generalizing i with
  | zero => rfl
  | succ n ih =>
    simp only [next_line_scan, find_line_stk]
    rw [ih]

theorem next_line_stk (s : VMState) (a : List Value) (hp : Heap)
    (sk : List Subr) :
    next_line { s with aestk := a, heap := hp, sbrstk := sk } =
      next_line s := by
  unfold next_line
  dsimp only
  rw [next_line_scan_stk]

/-- C5: the FOR opcode performs no termination test: whatever the start
and end values (in particular start = end), it pushes the loop frame and
sets the variable to the start value, so the body always runs.  The test
happens only at NXTFOR: once the variable holds the end value (which is
where a start = end loop stands after its single body execution), the
step carries past the end value for any non-zero step and the first
NXTFOR pops the frame and advances to the next statement instead of
looping back. -/
theorem claim5_for_once
    (sA : VMState) (vA : Nat) (startv endv nA : Int) (restA : List Value)
    (sB : VMState) (vB : Nat) (frame : Subr) (stkB : List Subr)
    (restB : List Value)
    (hstkA : sA.aestk = .num endv :: .num startv :: .varref vA :: restA)
    (hroomA : sA.sbrstk.length ≠ SIZE_SBRSTK)
    (hvA : sA.vars vA = .num nA)
    (hstkB : sB.aestk = .varref vB :: restB)
    (hframeB : sB.sbrstk = frame :: stkB)
    (hfv : frame.var = .var vB)
    (hval : sB.vars vB = .num frame.end_val)
    (hstep : frame.step ≠ 0)
    (hdir : sB.direct = false)
    (hnl1 : 1 ≤ next_line sB) (hnl2 : next_line sB ≤ MAX_LINENO)
    (hfind : (find_line sB (next_line sB)).isSome) :
    OPC_FOR sA = .ok { sA with
        aestk := restA,
        sbrstk := ⟨.var vA, next_line sA, 0, startv, endv, 1⟩ :: sA.sbrstk,
        vars := fun i => if i = vA then .num startv else sA.vars i } ∧
    OPC_NXTFOR sB = .ok { sB with
        aestk := restB,
        sbrstk := stkB,
        lineno := next_line sB,
        pc := sB.executor_pc,
        lbuf := some (next_line sB),
        lbuf_ptr := 0 } := by
  constructor
  · unfold OPC_FOR aestk_pop_number aestk_pop_varref aestk_pop_value
      sbrstk_push var_set_number
    rw [hstkA]
    simp only [Bind.bind, Except.bind, isNum, isVarref, value_release,
      if_true, eq_self_iff_true]
    rw [next_line_stk, if_neg hroomA]
    dsimp only
    rw [hvA]
  · obtain ⟨l, hl⟩ := Option.isSome_iff_exists.mp hfind
    unfold OPC_NXTFOR aestk_pop_value sbrstk_pop var_get_number
      next_statement set_line set_line_ext
    rw [hstkB]
    simp only [Bind.bind, Except.bind, value_release]
    dsimp only
    rw [hframeB]
    simp only [sbrstk_find]
    rw [hfv]
    simp only [frame_matches, decide_eq_true_eq, if_true, eq_self_iff_true]
    rw [hval]
    dsimp only
    have hdone : (if frame.step < 0 then
        frame.end_val + frame.step < frame.end_val
      else frame.end_val + frame.step > frame.end_val) := by
      by_cases hs : frame.step < 0
      · rw [if_pos hs]; omega
      · rw [if_neg hs]; omega
    rw [if_pos hdone]
    simp only [Bool.false_eq_true, if_false]
    rw [next_line_stk]
    rw [if_neg (by simp only [hdir, Bool.false_eq_true, false_or]; omega)]
    rw [if_neg (by omega)]
    rw [if_neg (by omega)]
    rw [if_neg (by simp [SIZE_LBUF])]
    unfold find_line at hl ⊢
    rw [if_neg (by omega)] at hl
    dsimp only
    rw [if_neg (by omega), hl]
    dsimp only
    simp only [sbrstk_find]
    rw [hfv]
    simp only [frame_matches, decide_eq_true_eq, if_true, eq_self_iff_true]

/-- Witness for C5: `FOR A = 5 TO 5` at line 10 of the concrete program
pushes the frame and sets A to 5; the first NXTFOR on the matching
concrete state pops the frame and moves on to line 40. -/
theorem claim5_for_once_witness :
    OPC_FOR egForState = .ok { egForState with
        aestk := [],
        sbrstk := ⟨.var 0, next_line egForState, 0, 5, 5, 1⟩ ::
          egForState.sbrstk,
        vars := fun i => if i = 0 then .num 5 else egForState.vars i } ∧
    OPC_NXTFOR egNxtforState = .ok { egNxtforState with
        aestk := [],
        sbrstk := [egSubrGosub],
        lineno := next_line egNxtforState,
        pc := egNxtforState.executor_pc,
        lbuf := some (next_line egNxtforState),
        lbuf_ptr := 0 } :=
  claim5_for_once egForState 0 5 5 0 [] egNxtforState 0 egSubrFor
    [egSubrGosub] [] (by decide) (by decide) (by decide) (by decide)
    (by decide) (by decide) (by decide) (by decide) (by decide) (by decide)
    (by decide) (by decide)

/-! ## C4: STR / VAL roundtrip -/

theorem digitChar_isDigit (d : Nat) (hd : d < 10) :
    isDigitChar (Nat.digitChar d) = true := by
  interval_cases d <;> decide

theorem digitChar_val (d : Nat) (hd : d < 10) :
    (Nat.digitChar d).toNat - 48 = d := by
  interval_cases d <;> decide

theorem digitChar_ne_minus (d : Nat) (hd : d < 10) :
    Nat.digitChar d ≠ '-' := by
  interval_cases d <;> decide

theorem digitChar_ne_plus (d : Nat) (hd : d < 10) :
    Nat.digitChar d ≠ '+' := by
  interval_cases d <;> decide

theorem digit_not_space (c : Char) (h : isDigitChar c = true) :
    isSpaceChar c = false := by
  unfold isSpaceChar
  rw [decide_eq_false_iff_not]
  rintro (rfl | rfl | rfl | rfl | rfl | rfl) <;> exact absurd h (by decide)

theorem decChars_parse (fuel : Nat) : ∀ (m : Nat) (acc : List Char) (a : Nat),
    m < 10 ^ fuel →
    ∃ S, parseDigits (decChars fuel m acc) a = parseDigits acc (a * S + m) := by
  induction fuel with
  | zero =>
    intro m acc a hm
    refine ⟨1, ?_⟩
    have : m = 0 := by omega
    subst this
    simp [decChars]
  | succ f ih =>
    intro m acc a hm
    by_cases h0 : m = 0
    · subst h0
      exact ⟨1, by simp [decChars]⟩
    · have hq : m / 10 < 10 ^ f := by
        have h10 : 10 ^ (f + 1) = 10 ^ f * 10 := pow_succ 10 f
        omega
      obtain ⟨S, hS⟩ := ih (m / 10) (Nat.digitChar (m % 10) :: acc) a hq
      refine ⟨10 * S, ?_⟩
      rw [decChars, if_neg h0, hS]
      rw [parseDigits, if_pos (digitChar_isDigit (m % 10) (Nat.mod_lt m (by omega)))]
      rw [digitChar_val (m % 10) (Nat.mod_lt m (by omega))]
      congr 1
      have := Nat.div_add_mod m 10
      ring_nf
      omega

theorem parseDigits_natToChars (m : Nat) (hm : m < 10 ^ 30) :
    parseDigits (natToChars m) 0 = (m, []) := by
  by_cases h0 : m = 0
  · subst h0; decide
  · unfold natToChars
    rw [if_neg h0]
    obtain ⟨S, hS⟩ := decChars_parse 30 m [] 0 hm
    rw [hS]
    simp [parseDigits]

theorem decChars_length (fuel : Nat) : ∀ (m : Nat) (acc : List Char),
    acc.length ≤ (decChars fuel m acc).length := by
  induction fuel with
  | zero => intro m acc; simp [decChars]
  | succ f ih =>
    intro m acc
    by_cases h0 : m = 0
    · simp [decChars, h0]
    · rw [decChars, if_neg h0]
      calc acc.length ≤ (Nat.digitChar (m % 10) :: acc).length := by simp
        _ ≤ _ := ih (m / 10) _

theorem natToChars_digits (m : Nat) :
    ∀ c ∈ natToChars m, isDigitChar c = true := by
  intro c hc
  by_cases h0 : m = 0
  · subst h0
    simp [natToChars] at hc
    subst hc
    decide
  · rw [natToChars, if_neg h0] at hc
    rcases decChars_mem 30 m [] c hc with h | ⟨d, hd, rfl⟩
    · simp at h
    · exact digitChar_isDigit d hd

theorem natToChars_ne_nil (m : Nat) : natToChars m ≠ [] := by
  by_cases h0 : m = 0
  · subst h0; decide
  · rw [natToChars, if_neg h0]
    intro h
    have h1 := decChars_length 29 (m / 10) [Nat.digitChar (m % 10)]
    rw [show decChars 30 m [] =
      decChars 29 (m / 10) [Nat.digitChar (m % 10)] from by
        rw [decChars, if_neg h0]] at h
    rw [h] at h1
    simp at h1

theorem natToChars_head (m : Nat) :
    ∃ c cs, natToChars m = c :: cs ∧ isDigitChar c = true ∧
      c ≠ '-' ∧ c ≠ '+' := by
  cases h : natToChars m with
  | nil => exact absurd h (natToChars_ne_nil m)
  | cons c cs =>
    have hcd : isDigitChar c = true := natToChars_digits m c (by rw [h]; simp)
    refine ⟨c, cs, rfl, hcd, ?_, ?_⟩
    · rintro rfl; exact absurd hcd (by decide)
    · rintro rfl; exact absurd hcd (by decide)

theorem strtol_natToChars (m : Nat) (hm : m ≤ 2147483648) :
    strtol_model (natToChars m) = ((m : Int), (natToChars m).length, false) := by
  obtain ⟨c, cs, hcons, hcd, hcm, hcp⟩ := natToChars_head m
  unfold strtol_model
  rw [hcons, List.dropWhile_cons, digit_not_space c hcd]
  simp only [Bool.false_eq_true, if_false]
  rw [if_neg (by simp [hcm, hcp])]
  dsimp only
  rw [if_pos hcd]
  rw [← hcons, parseDigits_natToChars m (by omega)]
  simp only [List.head?_cons, List.length_nil, Nat.sub_zero]
  rw [if_neg (by rw [hcons]; simp [hcm])]
  have herange : ¬((m : Int) > 9223372036854775807 ∨
      (m : Int) < -9223372036854775808) := by omega
  simp [herange, hcons]
  omega

theorem strtol_neg_natToChars (m : Nat) (hm : m ≤ 2147483648) :
    strtol_model ('-' :: natToChars m) =
      (-(m : Int), (natToChars m).length + 1, false) := by
  obtain ⟨c, cs, hcons, hcd, hcm, hcp⟩ := natToChars_head m
  unfold strtol_model
  rw [List.dropWhile_cons]
  simp only [show isSpaceChar '-' = false from by decide, Bool.false_eq_true,
    if_false]
  rw [if_pos (by simp)]
  simp only [List.head?_cons, List.tail_cons]
  rw [hcons]
  dsimp only
  rw [if_pos hcd]
  rw [← hcons, parseDigits_natToChars m (by omega)]
  have herange : ¬(-(m : Int) > 9223372036854775807 ∨
      -(m : Int) < -9223372036854775808) := by omega
  simp [herange, hcons]
  omega

/-- C4 (amended): in the integer-only build the roundtrip is exact: for
every n in the int range, VAL applied to the STR image of n (sprintf
"%d" followed by strtol) yields n again.  (In the floating-point build
the roundtrip fails; see the counterexample.) -/
theorem claim4_amended (n : Int) (h1 : INT_MIN ≤ n) (h2 : n ≤ INT_MAX) :
    OPC_VAL_value (format_number_int n) = .ok n := by
  unfold format_number_int intToChars OPC_VAL_value tbvm_strtonum_int
  have hINT : INT_MIN = -2147483648 ∧ INT_MAX = 2147483647 := ⟨rfl, rfl⟩
  by_cases hneg : n < 0
  · rw [if_pos hneg]
    rw [strtol_neg_natToChars (-n).toNat (by omega)]
    have hv : -(((-n).toNat : Nat) : Int) = n := by omega
    rw [hv]
    dsimp only
    rw [if_neg (by simp)]
    rw [if_neg (by rw [hINT.1] at h1; rw [hINT.2] at h2; omega)]
  · rw [if_neg hneg]
    rw [strtol_natToChars n.toNat (by omega)]
    have hv : ((n.toNat : Nat) : Int) = n := by omega
    rw [hv]
    dsimp only
    rw [if_neg (by simp [natToChars_ne_nil])]
    rw [if_neg (by rw [hINT.1] at h1; rw [hINT.2] at h2; omega)]

theorem onePlusUlp_pos : (0 : ℚ) < onePlusUlp := by norm_num [onePlusUlp]

theorem onePlusUlp_floor : onePlusUlp.floor = 1 := by
  norm_num [onePlusUlp, Rat.floor]

theorem decExp_onePlusUlp : decExp onePlusUlp = 0 := by
  unfold decExp
  rw [if_pos (by norm_num [onePlusUlp])]
  rw [onePlusUlp_floor]
  decide

theorem rhe_onePlusUlp : rhe (onePlusUlp * (10 : ℚ) ^ ((8 : ℤ) - 0)) =
    100000000 := by
  unfold rhe
  have harg : onePlusUlp * (10 : ℚ) ^ ((8 : ℤ) - 0) =
      100000000 + 100000000 / 2 ^ 52 := by
    norm_num [onePlusUlp]
  rw [harg]
  have hfl : ((100000000 + 100000000 / 2 ^ 52 : ℚ)).floor = 100000000 := by
    norm_num [Rat.floor]
  rw [hfl]
  rw [if_pos (by norm_num)]

theorem round9_onePlusUlp : round9 onePlusUlp = (100000000, 0) := by
  unfold round9
  rw [decExp_onePlusUlp]
  dsimp only
  rw [rhe_onePlusUlp]
  rw [if_neg (by norm_num)]

theorem formatG9_onePlusUlp : formatG9 onePlusUlp = ['1'] := by
  unfold formatG9
  rw [if_neg onePlusUlp_pos.ne']
  rw [abs_of_pos onePlusUlp_pos]
  dsimp only
  rw [round9_onePlusUlp]
  dsimp only
  rw [if_neg (not_lt.mpr onePlusUlp_pos.le)]
  decide

theorem binExp_one : binExp (1 : ℚ) = 0 := by
  unfold binExp
  rw [if_pos (by norm_num)]
  rw [show (1200 : Nat) = 1199 + 1 from rfl]
  rw [show binExpPos 1 0 (1199 + 1) =
    if (1 : ℚ) < 2 ^ (0 + 1) then ((0 : Nat) : ℤ) else binExpPos 1 1 1199
    from rfl]
  rw [if_pos (by norm_num)]
  rfl

theorem roundToDouble_one : roundToDouble (1 : ℚ) = 1 := by
  unfold roundToDouble
  rw [if_neg (by norm_num)]
  dsimp only
  rw [if_neg (by norm_num), abs_one, binExp_one]
  have hmax : ((0 : ℤ) - 52) ⊔ -1074 = -52 := by decide
  rw [hmax]
  have harg : (1 : ℚ) / 2 ^ (-52 : ℤ) = 4503599627370496 := by norm_num
  rw [harg]
  have hr : rhe (4503599627370496 : ℚ) = 4503599627370496 := by
    unfold rhe
    have hfl : ((4503599627370496 : ℚ)).floor = 4503599627370496 := by
      norm_num [Rat.floor]
    rw [hfl]
    rw [if_pos (by norm_num)]
  rw [hr]
  norm_num

theorem strtod_one : strtod_exact ['1'] = (1, 1) := by
  have h1 : (strtod_exact ['1']).1 =
      (((1 : ℕ) : ℚ) + ((0 : ℕ) : ℚ) / 10 ^ (0 : ℕ)) * (10 : ℚ) ^ (0 : ℤ) :=
    rfl
  have h2 : (strtod_exact ['1']).2 = 1 := rfl
  have hp : strtod_exact ['1'] =
      ((strtod_exact ['1']).1, (strtod_exact ['1']).2) := rfl
  rw [hp, h1, h2]
  norm_num

/-- C4, counterexample: in the floating-point build the roundtrip is not
exact.  1 + 2^-52 (the smallest double above 1) is representable, but
format_number prints it with %.9G as "1", and VAL parses that back to 1,
not to 1 + 2^-52: nine significant decimal digits cannot separate all
doubles. -/
theorem claim4_counterexample :
    isDoubleQ onePlusUlp ∧
    OPC_VAL_value_float (format_number_float onePlusUlp) = .ok 1 ∧
    onePlusUlp ≠ 1 := by
  refine ⟨⟨2 ^ 52 + 1, -52, by norm_num, by norm_num, by norm_num,
    by norm_num [onePlusUlp]⟩, ?_, by norm_num [onePlusUlp]⟩
  have hfmt : format_number_float onePlusUlp = ['1'] := by
    unfold format_number_float
    rw [if_neg ?later]
    · exact formatG9_onePlusUlp
    case later =>
      rw [abs_of_pos onePlusUlp_pos]
      norm_num [onePlusUlp]
  rw [hfmt]
  unfold OPC_VAL_value_float
  rw [strtod_one]
  dsimp only
  rw [if_neg (by decide)]
  rw [roundToDouble_one]

/-- Witness for the amended C4 at the extreme of the int range. -/
theorem claim4_amended_witness :
    INT_MIN ≤ (-2147483648 : Int) ∧ (-2147483648 : Int) ≤ INT_MAX ∧
    OPC_VAL_value (format_number_int (-2147483648)) = .ok (-2147483648) :=
  ⟨by decide, by decide,
    claim4_amended (-2147483648) (by decide) (by decide)⟩

end TBVM
